import Mathlib

/-! Gravedigger: pattern engine and vanity-search coordinator.

A shallow embedding of `src/mods/pattern.c` and `src/mods/vanity.c`, with
the parts of `src/mods/privkey.c`, `src/mods/benchmark.c`,
`src/ctrl_mods/gd_vanity.c` and `src/mods/gd_vanity.c` that the properties
below are about.

Conventions of the embedding
* a C string is the list of its bytes before the terminating NUL (`CStr`);
  the end of the list plays the part of the NUL byte;
* a pointer that the code tests against `NULL` is an `Option`;
* `calloc`, `strdup`, `strndup` and `malloc` are taken to succeed;
* a function that may read or write outside an array yields `none`
  (for matchers) or `Fault.undefined` (for compilers) on such a run.
-/

namespace Gravedigger

/-! ## C strings and the libc routines used by the matcher -/

/-- A C string: its bytes up to, not including, the terminating NUL. -/
abbrev CStr := List Nat

/-- Bytes of a string literal. -/
def cstr (s : String) : CStr := s.toList.map Char.toNat

/-- `tolower` in the C locale: `A`..`Z` go to `a`..`z`, every other byte is unchanged. -/
def tolower (c : Nat) : Nat := if 65 ≤ c ∧ c ≤ 90 then c + 32 else c

/-- `toupper` in the C locale. -/
def toupper (c : Nat) : Nat := if 97 ≤ c ∧ c ≤ 122 then c - 32 else c

/-- `strlen`. -/
def strlen (s : CStr) : Nat := s.length

/-- `strncmp(a, b, n)`: sign of the first difference among the first `n` bytes,
the end of a string counting as a NUL byte that stops the comparison. -/
def strncmp : CStr → CStr → Nat → Int
  | _, _, 0 => 0
  | [], [], _ + 1 => 0
  | [], _ :: _, _ + 1 => -1
  | _ :: _, [], _ + 1 => 1
  | a :: as, b :: bs, n + 1 =>
    if a = b then strncmp as bs n else if a < b then -1 else 1

/-- `strcmp(a, b)`. -/
def strcmp : CStr → CStr → Int
  | [], [] => 0
  | [], _ :: _ => -1
  | _ :: _, [] => 1
  | a :: as, b :: bs => if a = b then strcmp as bs else if a < b then -1 else 1

/-- `strncasecmp(a, b, n)`: `strncmp` on the lower-cased bytes. -/
def strncasecmp (a b : CStr) (n : Nat) : Int := strncmp (a.map tolower) (b.map tolower) n

/-- `strcasecmp(a, b)`: `strcmp` on the lower-cased bytes. -/
def strcasecmp (a b : CStr) : Int := strcmp (a.map tolower) (b.map tolower)

/-- `strstr(haystack, needle)`: the tail of `haystack` starting at the first
occurrence of `needle`, or `none` (NULL). -/
def strstr : CStr → CStr → Option CStr
  | [], needle => if needle = [] then some [] else none
  | h :: hs, needle =>
    if strncmp (h :: hs) needle needle.length = 0 then some (h :: hs) else strstr hs needle

/-- `strcasestr(haystack, needle)`: as `strstr`, comparing lower-cased bytes. -/
def strcasestr : CStr → CStr → Option CStr
  | [], needle => if needle = [] then some [] else none
  | h :: hs, needle =>
    if strncasecmp (h :: hs) needle needle.length = 0 then some (h :: hs)
    else strcasestr hs needle

/-! ## pattern.h: data model -/

/-- Tags of `pattern_type_t`. -/
inductive pattern_type_t where
  | PATTERN_TYPE_PREFIX
  | PATTERN_TYPE_SUFFIX
  | PATTERN_TYPE_CONTAINS
  | PATTERN_TYPE_EXACT
  | PATTERN_TYPE_REGEX
  | PATTERN_TYPE_WILDCARD
  | PATTERN_TYPE_MULTI
  | PATTERN_TYPE_ALTERNATION
  deriving DecidableEq, Repr

/-- Tags of `pattern_combine_t`. -/
inductive pattern_combine_t where
  | PATTERN_COMBINE_AND
  | PATTERN_COMBINE_OR
  deriving DecidableEq, Repr

/-- Character class `pattern_charclass_t`: the array `chars` and the number
`count` of its entries that are in use. -/
structure pattern_charclass_t where
  chars : List Nat
  count : Nat
  deriving DecidableEq, Repr

/-- Wildcard segment `pattern_segment_t`.  A wildcard segment is left by
`calloc` with `str = NULL` and `len = 0`; the NULL text is the empty list. -/
structure pattern_segment_t where
  str : CStr
  len : Nat
  is_wildcard : Bool
  deriving DecidableEq, Repr

/-- A compiled `regex_t`, seen through `regexec`: the set of strings on which
`regexec` returns 0. -/
abbrev regex_t := CStr → Bool

/-- The tagged union `struct Pattern`: one constructor per `type` tag,
carrying `case_sensitive` and the arm of the union that the tag selects. -/
inductive Pattern where
  | PREFIX (case_sensitive : Bool) (str : CStr) (len : Nat)
  | SUFFIX (case_sensitive : Bool) (str : CStr) (len : Nat)
  | CONTAINS (case_sensitive : Bool) (str : CStr) (len : Nat)
  | EXACT (case_sensitive : Bool) (str : CStr) (len : Nat)
  | REGEX (case_sensitive : Bool) (has_regex : Bool) (regex : regex_t)
  | WILDCARD (case_sensitive : Bool) (segments : List pattern_segment_t)
  | MULTI (case_sensitive : Bool) (patterns : List Pattern) (type : pattern_combine_t)
  | ALTERNATION (case_sensitive : Bool) (classes : List pattern_charclass_t)

/-! ## pattern.c: matching -/

/-- Inner `while (*next)` loop of `match_wildcard`: the first position of the
non-empty remainder at which `seg` compares equal; the result is the text
after that occurrence (`s = next + len`), or `none` when the end is reached. -/
def wildcard_scan (seg : pattern_segment_t) : CStr → Option CStr
  | [] => none
  | c :: cs =>
    if strncmp (c :: cs) seg.str seg.len = 0 then some ((c :: cs).drop seg.len)
    else wildcard_scan seg cs

/-- Outer loop of `match_wildcard` from index `i`, the list being
`segments[i..]`.  `last` is `segments[segment_count - 1].is_wildcard`, read by
the final `return`; it is `none` when `segment_count = 0`, where that read is
outside the array. -/
def wildcard_walk (last : Option Bool) : List pattern_segment_t → CStr → Option Bool
  | [], s => if s = [] then some true else last
  | seg :: rest, s =>
    if seg.is_wildcard then
      match rest with
      | [] => some true
      | nxt :: rest' =>
        match wildcard_scan nxt s with
        | none => some false
        | some s' => wildcard_walk last rest' s'
    else if strncmp s seg.str seg.len ≠ 0 then some false
    else wildcard_walk last rest (s.drop seg.len)

/-- `match_wildcard` on the segment array of a wildcard pattern. -/
def match_wildcard (segments : List pattern_segment_t) (str : CStr) : Option Bool :=
  wildcard_walk (segments.getLast?.map (·.is_wildcard)) segments str

/-- Inner `for j` loop of `match_alternation`: is `c` one of the first
`count` entries of the class, both folded with `tolower` unless
`case_sensitive`. -/
def charclass_has (case_sensitive : Bool) (cl : pattern_charclass_t) (c : Nat) : Bool :=
  (cl.chars.take cl.count).any fun p =>
    (if case_sensitive then c else tolower c) == (if case_sensitive then p else tolower p)

/-- `match_alternation`, the list being `classes[i..]` and `s` the current
position in the candidate. -/
def match_alternation (case_sensitive : Bool) : List pattern_charclass_t → CStr → Bool
  | [], s => s = []
  | _ :: _, [] => false
  | cl :: cls, c :: s =>
    if charclass_has case_sensitive cl c then match_alternation case_sensitive cls s else false

mutual
/-- `pattern_match` for a non-NULL pattern and string. -/
def pattern_match : Pattern → CStr → Option Bool
  | .PREFIX cs t len, str =>
    if strlen str < len then some false
    else some (if cs then strncmp str t len == 0 else strncasecmp str t len == 0)
  | .SUFFIX cs t len, str =>
    if strlen str < len then some false
    else
      let suffix := str.drop (strlen str - len)
      some (if cs then strcmp suffix t == 0 else strcasecmp suffix t == 0)
  | .CONTAINS cs t _, str =>
    some (if cs then (strstr str t).isSome else (strcasestr str t).isSome)
  | .EXACT cs t _, str =>
    some (if cs then strcmp str t == 0 else strcasecmp str t == 0)
  | .REGEX _ has_regex regex, str => some (has_regex && regex str)
  | .WILDCARD _ segments, str => match_wildcard segments str
  | .MULTI _ patterns .PATTERN_COMBINE_AND, str => pattern_match_all patterns str
  | .MULTI _ patterns .PATTERN_COMBINE_OR, str => pattern_match_any patterns str
  | .ALTERNATION cs classes, str => some (match_alternation cs classes str)
/-- The AND loop of `pattern_match`: stop with `false` at the first
sub-pattern that rejects. -/
def pattern_match_all : List Pattern → CStr → Option Bool
  | [], _ => some true
  | p :: ps, str =>
    match pattern_match p str with
    | none => none
    | some false => some false
    | some true => pattern_match_all ps str
/-- The OR loop of `pattern_match`: stop with `true` at the first
sub-pattern that accepts. -/
def pattern_match_any : List Pattern → CStr → Option Bool
  | [], _ => some false
  | p :: ps, str =>
    match pattern_match p str with
    | none => none
    | some true => some true
    | some false => pattern_match_any ps str
end

/-! ## pattern.c: compilation -/

/-- How a compiler call can end without a pattern: it returns `NULL`, or it
writes outside an array it allocated (no defined result). -/
inductive Fault where
  | null
  | undefined
  deriving DecidableEq, Repr

/-- `PATTERN_MAX_LENGTH`. -/
def PATTERN_MAX_LENGTH : Nat := 64

/-- `PATTERN_MAX_MULTI`. -/
def PATTERN_MAX_MULTI : Nat := 8

/-- `PATTERN_MAX_CHARCLASS`. -/
def PATTERN_MAX_CHARCLASS : Nat := 58

/-- `base58_len`. -/
def base58_len : Nat := 58

/-- The byte `*`. -/
def STAR : Nat := 42

/-- The byte `[`. -/
def LBRACKET : Nat := 91

/-- The byte `]`. -/
def RBRACKET : Nat := 93

/-- First pass of `compile_wildcard`: `count = 1 +` the number of `*`; this
is the number of entries of the `segments` array that is allocated. -/
def wildcard_count (pattern : CStr) : Nat := 1 + pattern.count STAR

/-- A literal segment as `compile_wildcard` writes it. -/
def literal_segment (text : CStr) : pattern_segment_t := ⟨text, text.length, false⟩

/-- A wildcard segment as `compile_wildcard` writes it: only `is_wildcard` is
set, `str` and `len` keep the zeroes of `calloc`. -/
def star_segment : pattern_segment_t := ⟨[], 0, true⟩

/-- Second pass of `compile_wildcard`.  `run` is the text between `start` and
`s`, the list argument the text from `s` on; the result lists the segments
written at `idx, idx + 1, ...`. -/
def wildcard_parse : CStr → CStr → List pattern_segment_t
  | run, [] => if run ≠ [] then [literal_segment run] else []
  | run, c :: t =>
    if c = STAR then
      (if run ≠ [] then [literal_segment run] else []) ++ star_segment :: wildcard_parse [] t
    else wildcard_parse (run ++ [c]) t

/-- `compile_wildcard`.  The second pass writes `segments[0 .. idx - 1]` in
order into an array of `count` entries, so it stays inside the array exactly
when the final `idx` is at most `count`; otherwise the call is undefined. -/
def compile_wildcard (pattern : CStr) (case_sensitive : Bool) : Except Fault Pattern :=
  let count := wildcard_count pattern
  let segments := wildcard_parse [] pattern
  if segments.length ≤ count then .ok (.WILDCARD case_sensitive segments)
  else .error .undefined

/-- `strchr(s, c)`: the tail of `s` starting at the first `c`, or `none`. -/
def strchr : CStr → Nat → Option CStr
  | [], _ => none
  | a :: as, c => if a = c then some (a :: as) else strchr as c

/-- First pass of `pattern_compile_alternation`: the number of classes, or
`none` when a `[` has no `]` after it.  `fuel` bounds the iterations; each
one consumes at least one byte. -/
def alternation_count : Nat → CStr → Option Nat
  | 0, _ => some 0
  | _ + 1, [] => some 0
  | fuel + 1, c :: t =>
    if c = LBRACKET then
      match strchr (c :: t) RBRACKET with
      | none => none
      | some p => (alternation_count fuel (p.drop 1)).map (· + 1)
    else alternation_count fuel t

/-- Inner `while` of the second pass: copy bytes into `chars` until `]`, the
end of the text, or `room` bytes have been copied; returns the bytes copied
and the position reached. -/
def alternation_read_class : Nat → CStr → List Nat × CStr
  | 0, s => ([], s)
  | _ + 1, [] => ([], [])
  | room + 1, c :: t =>
    if c = RBRACKET then ([], c :: t)
    else ((c :: (alternation_read_class room t).1), (alternation_read_class room t).2)

/-- Second pass of `pattern_compile_alternation`; `todo` is
`class_count - class_idx`.  `none` is the `*ptr != ']'` failure. -/
def alternation_parse : Nat → CStr → Nat → Option (List pattern_charclass_t)
  | 0, _, _ => some []
  | _ + 1, [], _ => some []
  | _ + 1, _ :: _, 0 => some []
  | fuel + 1, c :: t, todo + 1 =>
    if c = LBRACKET then
      match alternation_read_class PATTERN_MAX_CHARCLASS t with
      | (chars, r :: rest) =>
        if r = RBRACKET then
          (alternation_parse fuel rest todo).map (⟨chars, chars.length⟩ :: ·)
        else none
      | (_, []) => none
    else alternation_parse fuel t (todo + 1)

/-- `pattern_compile_alternation`.  The class array has `class_count`
entries; those the second pass does not reach keep the zeroes of `calloc`. -/
def pattern_compile_alternation (pattern : Option CStr) (case_sensitive : Bool) :
    Except Fault Pattern :=
  match pattern with
  | none => .error .null
  | some text =>
    match alternation_count (text.length + 1) text with
    | none => .error .null
    | some class_count =>
      if class_count = 0 then .error .null
      else
        match alternation_parse (text.length + 1) text class_count with
        | none => .error .null
        | some classes =>
          .ok (.ALTERNATION case_sensitive
            (classes ++ List.replicate (class_count - classes.length) ⟨[], 0⟩))

/-- `pattern_compile`.  `regcomp text icase` is the POSIX `regcomp` with
`REG_EXTENDED | REG_NOSUB` and, when `icase`, `REG_ICASE`: the compiled
engine, or `none` when it reports an error. -/
def pattern_compile (regcomp : CStr → Bool → Option regex_t) (pattern : Option CStr)
    (type : pattern_type_t) (case_sensitive : Bool) : Except Fault Pattern :=
  match pattern with
  | none => .error .null
  | some text =>
    if strlen text > PATTERN_MAX_LENGTH then .error .null
    else
      match type with
      | .PATTERN_TYPE_WILDCARD => compile_wildcard text case_sensitive
      | .PATTERN_TYPE_ALTERNATION => pattern_compile_alternation (some text) case_sensitive
      | .PATTERN_TYPE_PREFIX => .ok (.PREFIX case_sensitive text (strlen text))
      | .PATTERN_TYPE_SUFFIX => .ok (.SUFFIX case_sensitive text (strlen text))
      | .PATTERN_TYPE_CONTAINS => .ok (.CONTAINS case_sensitive text (strlen text))
      | .PATTERN_TYPE_EXACT => .ok (.EXACT case_sensitive text (strlen text))
      | .PATTERN_TYPE_REGEX =>
        match regcomp text (!case_sensitive) with
        | none => .error .null
        | some re => .ok (.REGEX case_sensitive true re)
      | .PATTERN_TYPE_MULTI => .error .null

/-- The `for` loop of `pattern_compile_multi`: compile each text as an Exact
pattern, in order, giving up at the first failure. -/
def compile_multi_loop (regcomp : CStr → Bool → Option regex_t) (case_sensitive : Bool) :
    List (Option CStr) → Except Fault (List Pattern)
  | [] => .ok []
  | t :: ts =>
    match pattern_compile regcomp t .PATTERN_TYPE_EXACT case_sensitive with
    | .error e => .error e
    | .ok p =>
      match compile_multi_loop regcomp case_sensitive ts with
      | .error e => .error e
      | .ok ps => .ok (p :: ps)

/-- `pattern_compile_multi`; `count` is the length of the array `patterns`. -/
def pattern_compile_multi (regcomp : CStr → Bool → Option regex_t)
    (patterns : Option (List (Option CStr))) (combine_type : pattern_combine_t)
    (case_sensitive : Bool) : Except Fault Pattern :=
  match patterns with
  | none => .error .null
  | some texts =>
    if texts.length = 0 ∨ texts.length > PATTERN_MAX_MULTI then .error .null
    else
      match compile_multi_loop regcomp case_sensitive texts with
      | .error e => .error e
      | .ok ps => .ok (.MULTI case_sensitive ps combine_type)

/-! ## pattern.c: probability (doubles read as exact rationals) -/

/-- `calc_wildcard_probability`. -/
def calc_wildcard_probability (segments : List pattern_segment_t) : ℚ :=
  let fixed_chars := segments.foldl (fun n g => if g.is_wildcard then n else n + g.len) 0
  segments.foldl (fun prob g => if g.is_wildcard then prob * (1 / 2) else prob)
    ((1 / (base58_len : ℚ)) ^ fixed_chars)

/-- `calc_alternation_probability`. -/
def calc_alternation_probability (classes : List pattern_charclass_t) : ℚ :=
  classes.foldl (fun prob cl => prob * ((cl.count : ℚ) / (base58_len : ℚ))) 1

mutual
/-- `pattern_probability` for a non-NULL pattern. -/
def pattern_probability : Pattern → ℚ
  | .PREFIX _ _ len => (1 / (base58_len : ℚ)) ^ len
  | .SUFFIX _ _ len => (1 / (base58_len : ℚ)) ^ len
  | .CONTAINS _ _ len => (1 / (base58_len : ℚ)) ^ len * (1 / 10)
  | .EXACT _ _ len => (1 / (base58_len : ℚ)) ^ len
  | .REGEX _ _ _ => 0
  | .WILDCARD _ segments => calc_wildcard_probability segments
  | .MULTI _ patterns .PATTERN_COMBINE_AND => probability_product 1 patterns
  | .MULTI _ patterns .PATTERN_COMBINE_OR => probability_sum 0 patterns
  | .ALTERNATION _ classes => calc_alternation_probability classes
/-- The AND loop of `pattern_probability`: `prob *= ...`. -/
def probability_product : ℚ → List Pattern → ℚ
  | prob, [] => prob
  | prob, p :: ps => probability_product (prob * pattern_probability p) ps
/-- The OR loop of `pattern_probability`: `prob += ...`. -/
def probability_sum : ℚ → List Pattern → ℚ
  | prob, [] => prob
  | prob, p :: ps => probability_sum (prob + pattern_probability p) ps
end

/-! ## privkey.c: the WIF serializer used by the coordinator -/

/-- `struct PrivKey`: the secret bytes and the compression flag byte. -/
structure PrivKey where
  data : List Nat
  cflag : Nat
  deriving DecidableEq, Repr

/-- `struct PubKey`, kept as its bytes (the layout is declared in `pubkey.h`). -/
structure PubKey where
  data : List Nat
  deriving DecidableEq, Repr

/-- What `privkey.c` and `vanity.c` take from headers and modules outside the
repository sources: constants of `privkey.h`, the network selector, the
base58check encoder (`none` when it returns a negative value) and the
indeterminate byte an unassigned `p[0]` holds. -/
structure Extern where
  PRIVKEY_LENGTH : Nat
  PRIVKEY_COMPRESSED_FLAG : Nat
  PRIVKEY_WIF_LENGTH_MIN : Nat
  network_is_main : Bool
  network_is_test : Bool
  base58check_encode : List Nat → Option CStr
  stack_byte : Nat

/-- `MAINNET_PREFIX`. -/
def MAINNET_PREFIX : Nat := 0x80

/-- `TESTNET_PREFIX`. -/
def TESTNET_PREFIX : Nat := 0xEF

/-- `privkey_is_compressed`. -/
def privkey_is_compressed (x : Extern) (key : PrivKey) : Bool :=
  key.cflag == x.PRIVKEY_COMPRESSED_FLAG

/-- `privkey_to_wif(str, key)`: the return value and the content of `str`
afterwards. -/
def privkey_to_wif (x : Extern) (str : CStr) (key : PrivKey) : Int × CStr :=
  let p0 := if x.network_is_main then MAINNET_PREFIX
    else if x.network_is_test then TESTNET_PREFIX else x.stack_byte
  let p := p0 :: key.data.take x.PRIVKEY_LENGTH ++
    (if privkey_is_compressed x key then [x.PRIVKEY_COMPRESSED_FLAG] else [])
  match x.base58check_encode p with
  | none => (-1, str)
  | some base58check => (1, base58check)

/-! ## vanity.c: the search coordinator -/

/-- `VANITY_MAX_PATTERN`. -/
def VANITY_MAX_PATTERN : Nat := 16

/-- `VANITY_MAX_THREADS`. -/
def VANITY_MAX_THREADS : Nat := 64

/-- `struct ThreadContext` without the back pointer and the thread handle. -/
structure ThreadContext where
  thread_id : Int
  running : Bool
  deriving DecidableEq, Repr

/-- `struct timespec` / `struct timeval`: seconds and the sub-second field. -/
structure TimeVal where
  sec : Int
  sub : Int
  deriving DecidableEq, Repr

/-- `struct VanitySearch`.  The mutex is not a field: a critical section is
one step of the model.  `progress_callback` is the function pointer
(`none` = NULL). -/
structure VanitySearch where
  pattern : Pattern
  case_sensitive : Bool
  num_threads : Int
  found : Bool
  stopped : Bool
  attempts : Nat
  start_time : TimeVal
  found_privkey : PrivKey
  found_pubkey : PubKey
  found_address : CStr
  progress_callback : Option Nat
  progress_user_data : Nat
  progress_interval_ms : Int
  last_progress : TimeVal
  contexts : List ThreadContext

/-- `vanity_init`.  `search` is the out-pointer (`none` = NULL, `some slot` =
a pointer to a handle variable holding `slot`); the result is the return
value and the handle variable afterwards.  `mutex_init` tells whether
`pthread_mutex_init` succeeds and `privkey_new` is the key `privkey_new`
creates (`none` when it fails).  The copied `struct Pattern` is taken by
value. -/
def vanity_init (regcomp : CStr → Bool → Option regex_t) (mutex_init : Bool)
    (privkey_new : Option PrivKey) (search : Option (Option VanitySearch))
    (pattern : Option CStr) (case_sensitive : Bool) (num_threads : Int) :
    Int × Option (Option VanitySearch) :=
  match search, pattern with
  | some slot, some text =>
    if strlen text > VANITY_MAX_PATTERN then (-1, some slot)
    else if num_threads < 1 ∨ num_threads > VANITY_MAX_THREADS then (-1, some slot)
    else
      match pattern_compile regcomp (some text) .PATTERN_TYPE_PREFIX case_sensitive with
      | .error _ => (-1, some slot)
      | .ok compiled_pattern =>
        if !mutex_init then (-1, some slot)
        else
          match privkey_new with
          | none => (-1, some slot)
          | some key =>
            (0, some (some {
              pattern := compiled_pattern
              case_sensitive := case_sensitive
              num_threads := num_threads
              found := false
              stopped := false
              attempts := 0
              start_time := ⟨0, 0⟩
              found_privkey := key
              found_pubkey := ⟨[]⟩
              found_address := []
              progress_callback := none
              progress_user_data := 0
              progress_interval_ms := 0
              last_progress := ⟨0, 0⟩
              contexts := List.replicate VANITY_MAX_THREADS ⟨0, false⟩ }))
  | _, _ => (-1, search)

/-- A candidate of a worker's key pool: `privkeys[i]`, `pubkeys[i]`,
`addresses[i]`. -/
structure Candidate where
  privkey : PrivKey
  pubkey : PubKey
  address : CStr
  deriving DecidableEq, Repr

/-- The match site of `search_thread` (lines 140-151): the pattern test on
the address without its version byte and, when it accepts, the critical
section that records the winner if `found` is still unset.  The branch is
taken when `pattern_match` yields `true`. -/
def worker_match_site (x : Extern) (s : VanitySearch) (c : Candidate) : VanitySearch :=
  if pattern_match s.pattern (c.address.drop 1) = some true then
    if !s.found then
      { s with
        found := true
        found_privkey := ⟨c.privkey.data.take x.PRIVKEY_LENGTH ++
          s.found_privkey.data.drop x.PRIVKEY_LENGTH, c.privkey.cflag⟩
        found_pubkey := c.pubkey
        found_address := c.address }
    else s
  else s

/-- The counter update of `search_thread` (line 137) on the 64-bit field. -/
def worker_count_attempt (s : VanitySearch) : VanitySearch :=
  { s with attempts := (s.attempts + 1) % 2 ^ 64 }

/-- The progress critical section of `search_thread` (lines 161-166), taken
when the callback is set and `elapsed_ms >= progress_interval_ms`; the
callback itself does not touch the search state. -/
def worker_progress (s : VanitySearch) (now : TimeVal) : VanitySearch :=
  match s.progress_callback with
  | none => s
  | some _ =>
    let elapsed_ms := (now.sec - s.last_progress.sec) * 1000 +
      Int.tdiv (now.sub - s.last_progress.sub) 1000
    if elapsed_ms ≥ s.progress_interval_ms then { s with last_progress := now } else s

/-- A worker sets or clears its `running` flag (`ctx->running = ...`). -/
def worker_set_running (s : VanitySearch) (thread : Nat) (running : Bool) : VanitySearch :=
  { s with contexts := s.contexts.modify (fun ctx => { ctx with running := running }) thread }

/-- The spawn loop of `vanity_start` from thread `i`, `todo` threads being
left; `created i` tells whether `pthread_create` succeeds for thread `i`.
Returns `false` at the first failure. -/
def start_loop (created : Nat → Bool) : Nat → Nat → List ThreadContext →
    Bool × List ThreadContext
  | 0, _, ctxs => (true, ctxs)
  | todo + 1, i, ctxs =>
    let ctxs1 := ctxs.set i ⟨(i : Int), false⟩
    if created i then start_loop created todo (i + 1) ctxs1 else (false, ctxs1)

/-- `vanity_stop` for a non-NULL handle: set `stopped`; joining the workers
changes no field. -/
def vanity_stop (s : VanitySearch) : VanitySearch := { s with stopped := true }

/-- `vanity_start` for a non-NULL handle: the clock readings are passed in. -/
def vanity_start (created : Nat → Bool) (clock : TimeVal) (wall : TimeVal)
    (s : VanitySearch) : Int × VanitySearch :=
  let s1 := { s with start_time := clock, last_progress := wall }
  let r := start_loop created s.num_threads.toNat 0 s1.contexts
  if r.1 then (0, { s1 with contexts := r.2 })
  else (-1, vanity_stop { s1 with contexts := r.2 })

/-- `vanity_found`. -/
def vanity_found (search : Option VanitySearch) : Bool :=
  match search with
  | some s => s.found
  | none => false

/-- `vanity_is_stopped`. -/
def vanity_is_stopped (search : Option VanitySearch) : Bool :=
  match search with
  | some s => s.stopped
  | none => true

/-- `vanity_get_wif(search, wif, wif_size)`: the return value and the buffer
afterwards (`none` = the NULL buffer). -/
def vanity_get_wif (x : Extern) (search : Option VanitySearch) (wif : Option CStr)
    (wif_size : Nat) : Int × Option CStr :=
  match search, wif with
  | some s, some buf =>
    if wif_size < x.PRIVKEY_WIF_LENGTH_MIN ∨ !s.found then (-1, some buf)
    else ((privkey_to_wif x buf s.found_privkey).1, some (privkey_to_wif x buf s.found_privkey).2)
  | _, _ => (-1, wif)

/-- `vanity_get_address(search, address, address_size)`: the return value and
the buffer afterwards. -/
def vanity_get_address (search : Option VanitySearch) (address : Option CStr)
    (address_size : Nat) : Int × Option CStr :=
  match search, address with
  | some s, some buf =>
    if address_size < 35 ∨ !s.found then (-1, some buf) else (0, some s.found_address)
  | _, _ => (-1, address)

/-- `vanity_set_progress_callback`: the return value and the state
afterwards. -/
def vanity_set_progress_callback (s : VanitySearch) (callback : Option Nat)
    (user_data : Nat) (interval_ms : Int) : Int × VanitySearch :=
  match callback with
  | none => (-1, s)
  | some cb =>
    if interval_ms < 0 then (-1, s)
    else (0, { s with
      progress_callback := some cb
      progress_user_data := user_data
      progress_interval_ms := interval_ms })

/-- One atomic step on a search state: a coordinator call or one step of a
worker. -/
inductive Event where
  | start (created : Nat → Bool) (clock wall : TimeVal)
  | stop
  | set_progress_callback (callback : Option Nat) (user_data : Nat) (interval_ms : Int)
  | count_attempt
  | match_site (c : Candidate)
  | progress (now : TimeVal)
  | set_running (thread : Nat) (running : Bool)

/-- The state after one event. -/
def step (x : Extern) (s : VanitySearch) : Event → VanitySearch
  | .start created clock wall => (vanity_start created clock wall s).2
  | .stop => vanity_stop s
  | .set_progress_callback cb ud ms => (vanity_set_progress_callback s cb ud ms).2
  | .count_attempt => worker_count_attempt s
  | .match_site c => worker_match_site x s c
  | .progress now => worker_progress s now
  | .set_running thread running => worker_set_running s thread running

/-- The state after a sequence of events. -/
def run (x : Extern) (s : VanitySearch) (events : List Event) : VanitySearch :=
  events.foldl (step x) s

/-! ## ctrl_mods/gd_vanity.c: the command front -/

/-- One option as `getopt(argc, argv, "it:p:m:b")` hands it to the switch of
`gd_handle_vanity`; `other` is any return value the switch sends to
`default`. -/
inductive Opt where
  | i
  | t (optarg : CStr)
  | p (optarg : CStr)
  | m (optarg : CStr)
  | b
  | other
  deriving DecidableEq, Repr

/-- Digits of `atoi`: the value of the leading run of decimal digits, `acc`
being the value read so far. -/
def atoi_digits : Nat → CStr → Nat
  | acc, [] => acc
  | acc, c :: cs => if 48 ≤ c ∧ c ≤ 57 then atoi_digits (acc * 10 + (c - 48)) cs else acc

/-- `atoi` without leading blanks: an optional sign, then digits (values that
fit an `int`). -/
def atoi_signed : CStr → Int
  | [] => 0
  | c :: cs =>
    if c = 45 then -(atoi_digits 0 cs : Int)
    else if c = 43 then (atoi_digits 0 cs : Int)
    else (atoi_digits 0 (c :: cs) : Int)

/-- `atoi`: skip leading white space, then read a signed decimal number. -/
def atoi : CStr → Int
  | [] => 0
  | c :: cs => if c = 32 ∨ (9 ≤ c ∧ c ≤ 13) then atoi cs else atoi_signed (c :: cs)

/-- The locals of `gd_handle_vanity` that the option loop sets. -/
structure VanityOptions where
  case_sensitive : Bool
  run_benchmark : Bool
  threads : Int
  pattern_type : pattern_type_t
  combine_type : pattern_combine_t
  deriving DecidableEq, Repr

/-- The `switch (opt)` of `gd_handle_vanity` for one option: the locals
afterwards, or the value returned at once. -/
def gd_handle_vanity_option (o : VanityOptions) : Opt → Except Int VanityOptions
  | .i => .ok { o with case_sensitive := false }
  | .t optarg =>
    if atoi optarg ≤ 0 then .error (-1) else .ok { o with threads := atoi optarg }
  | .p optarg =>
    if strcmp optarg (cstr "prefix") = 0 then
      .ok { o with pattern_type := .PATTERN_TYPE_PREFIX }
    else if strcmp optarg (cstr "suffix") = 0 then
      .ok { o with pattern_type := .PATTERN_TYPE_SUFFIX }
    else if strcmp optarg (cstr "contains") = 0 then
      .ok { o with pattern_type := .PATTERN_TYPE_CONTAINS }
    else if strcmp optarg (cstr "exact") = 0 then
      .ok { o with pattern_type := .PATTERN_TYPE_EXACT }
    else if strcmp optarg (cstr "regex") = 0 then
      .ok { o with pattern_type := .PATTERN_TYPE_REGEX }
    else if strcmp optarg (cstr "wildcard") = 0 then
      .ok { o with pattern_type := .PATTERN_TYPE_WILDCARD }
    else if strcmp optarg (cstr "alt") = 0 then
      .ok { o with pattern_type := .PATTERN_TYPE_ALTERNATION }
    else .error (-1)
  | .m optarg =>
    if strcmp optarg (cstr "and") = 0 then
      .ok { o with combine_type := .PATTERN_COMBINE_AND, pattern_type := .PATTERN_TYPE_MULTI }
    else if strcmp optarg (cstr "or") = 0 then
      .ok { o with combine_type := .PATTERN_COMBINE_OR, pattern_type := .PATTERN_TYPE_MULTI }
    else .error (-1)
  | .b => .ok { o with run_benchmark := true }
  | .other => .error (-1)

/-- The option loop of `gd_handle_vanity` on the options in command-line
order, from the locals `o`. -/
def gd_handle_vanity_loop : VanityOptions → List Opt → Except Int VanityOptions
  | o, [] => .ok o
  | o, opt :: opts =>
    match gd_handle_vanity_option o opt with
    | .error r => .error r
    | .ok o1 => gd_handle_vanity_loop o1 opts

/-- The option loop of `gd_handle_vanity` from the initial locals; `nprocs`
is `sysconf(_SC_NPROCESSORS_ONLN)`. -/
def gd_handle_vanity_options (nprocs : Int) (opts : List Opt) : Except Int VanityOptions :=
  gd_handle_vanity_loop
    { case_sensitive := true
      run_benchmark := false
      threads := nprocs
      pattern_type := .PATTERN_TYPE_PREFIX
      combine_type := .PATTERN_COMBINE_AND } opts

/-- Lines 141-151 of `gd_handle_vanity`: compile `argv[optind..]` according
to the pattern type; `args` is not empty. -/
def gd_handle_vanity_compile (regcomp : CStr → Bool → Option regex_t) (o : VanityOptions)
    (args : List CStr) : Except Fault Pattern :=
  match o.pattern_type with
  | .PATTERN_TYPE_MULTI =>
    pattern_compile_multi regcomp (some (args.map some)) o.combine_type o.case_sensitive
  | .PATTERN_TYPE_ALTERNATION => pattern_compile_alternation args.head? o.case_sensitive
  | type => pattern_compile regcomp args.head? type o.case_sensitive

/-- Lines 222-250 of `gd_handle_vanity`: the return value and, when the key
is printed, the WIF text and the address printed.  The local buffers `wif`
and `address` have 100 bytes. -/
def gd_handle_vanity_results (x : Extern) (ctx : VanitySearch) :
    Int × Option (Option CStr × Option CStr) :=
  if vanity_found (some ctx) then
    if (vanity_get_wif x (some ctx) (some []) 100).1 ≠ 0 then (-1, none)
    else if (vanity_get_address (some ctx) (some []) 100).1 ≠ 0 then (-1, none)
    else (0, some ((vanity_get_wif x (some ctx) (some []) 100).2,
      (vanity_get_address (some ctx) (some []) 100).2))
  else (0, none)

/-- What the surroundings contribute to one call of `gd_handle_vanity`: the
processor count, whether `benchmark_run` returns 0, the byte `getchar` reads,
the outcomes of mutex, key and thread creation and of `sigaction`, the clock
readings, and the steps workers and the signal handler take while the front
waits. -/
structure FrontEnv where
  nprocs : Int
  benchmark_ok : Bool
  response : Nat
  mutex_init : Bool
  privkey_new : Option PrivKey
  sigaction_ok : Bool
  created : Nat → Bool
  clock : TimeVal
  wall : TimeVal
  history : List Event

/-- The search state `gd_handle_vanity` hands to the workers: the result of
`vanity_init` on `argv[optind]` (line 182), with the progress callback set
(line 202) and the search started (line 208); `none` when a step fails. -/
def gd_handle_vanity_search (regcomp : CStr → Bool → Option regex_t) (env : FrontEnv)
    (o : VanityOptions) (args : List CStr) : Option VanitySearch :=
  match vanity_init regcomp env.mutex_init env.privkey_new (some none) args.head?
      o.case_sensitive o.threads with
  | (0, some (some ctx)) =>
    if !env.sigaction_ok then none
    else
      let started := vanity_start env.created env.clock env.wall
        (vanity_set_progress_callback ctx (some 1) 0 100).2
      if started.1 ≠ 0 then none else some started.2
  | _ => none

/-- `gd_handle_vanity`: its return value, or `none` when the call has no
defined return value (the pattern compiler left defined behaviour, or the
wait loop has not ended after `env.history`). -/
def gd_handle_vanity (x : Extern) (regcomp : CStr → Bool → Option regex_t) (env : FrontEnv)
    (opts : List Opt) (args : List CStr) : Option Int :=
  match gd_handle_vanity_options env.nprocs opts with
  | .error r => some r
  | .ok o =>
    if args = [] then some (-1)
    else
      match gd_handle_vanity_compile regcomp o args with
      | .error .null => some (-1)
      | .error .undefined => none
      | .ok _ =>
        if o.run_benchmark && env.benchmark_ok && (env.response = 110 || env.response = 78)
        then some 0
        else
          match gd_handle_vanity_search regcomp env o args with
          | none => some (-1)
          | some ctx =>
            if !vanity_found (some (run x ctx env.history)) &&
                !vanity_is_stopped (some (run x ctx env.history)) then none
            else some (gd_handle_vanity_results x (run x ctx env.history)).1

/-- Sample constants with an encoder that succeeds (it returns the payload
bytes as the text). -/
def sample_encoder : Extern :=
  { PRIVKEY_LENGTH := 32
    PRIVKEY_COMPRESSED_FLAG := 1
    PRIVKEY_WIF_LENGTH_MIN := 51
    network_is_main := true
    network_is_test := false
    base58check_encode := fun p => some p
    stack_byte := 0 }

/-! ## The bracket groups of an alternation text -/

/-- The bracket groups of a text as the specification words them, read from
left to right: outside a group (`group = none`) a `[` opens a group and any
other byte is skipped; inside a group (`group = some g`, `g` the bytes read
so far) the next `]` closes it and any other byte, `[` included, belongs to
it.  `none` when the text ends inside a group. -/
def bracket_scan : Option CStr → CStr → Option (List CStr)
  | none, [] => some []
  | some _, [] => none
  | none, c :: t => if c = LBRACKET then bracket_scan (some []) t else bracket_scan none t
  | some g, c :: t =>
    if c = RBRACKET then (bracket_scan none t).map (g :: ·)
    else bracket_scan (some (g ++ [c])) t

/-- The bracket groups of a text, in text order. -/
def bracket_groups (text : CStr) : Option (List CStr) := bracket_scan none text

/-- The bytes before the first `]` of a text and the text after it. -/
def split_rbracket : CStr → Option (CStr × CStr)
  | [] => none
  | c :: t =>
    if c = RBRACKET then some ([], t)
    else (split_rbracket t).map fun gr => (c :: gr.1, gr.2)

/-! ## vanity.c: one batch of a worker -/

/-- The key-derivation routines `search_thread` calls, declared in headers
outside the repository sources and taken as fixed functions of their inputs:
`privkey_import` gives the secret bytes it stores in the key, `pubkey_get`
the public key of a private key, `address_get_p2pkh` the address text; each
is `none` when the routine reports a failure. -/
structure Deriver where
  privkey_import : List Nat → Option (List Nat)
  pubkey_get : PrivKey → Option PubKey
  address_get_p2pkh : PubKey → Option CStr

/-- Lines 117-134 of `search_thread` for one 32-byte chunk of `key_data`: the
secret is imported, the compressed flag set, the public key and the address
derived; `none` when a step fails and the loop takes `continue`. -/
def derive_candidate (x : Extern) (d : Deriver) (chunk : List Nat) : Option Candidate :=
  match d.privkey_import chunk with
  | none => none
  | some data =>
    match d.pubkey_get ⟨data, x.PRIVKEY_COMPRESSED_FLAG⟩ with
    | none => none
    | some pub =>
      match d.address_get_p2pkh pub with
      | none => none
      | some address => some ⟨⟨data, x.PRIVKEY_COMPRESSED_FLAG⟩, pub, address⟩

/-- Whether the search pattern of `s` accepts the address of the candidate a
chunk yields, version byte skipped; `false` when the chunk yields none. -/
def chunk_matches (x : Extern) (d : Deriver) (s : VanitySearch) (chunk : List Nat) : Bool :=
  match derive_candidate x d chunk with
  | none => false
  | some c => pattern_match s.pattern (c.address.drop 1) = some true

/-- A sample deriver: the secret is the 32-byte chunk, the public key repeats the
secret, and the address is `1` followed by the first bytes of the key. -/
def sample_deriver : Deriver :=
  { privkey_import := fun chunk => if chunk.length = 32 then some chunk else none
    pubkey_get := fun key => some ⟨key.data⟩
    address_get_p2pkh := fun pub => some (49 :: pub.data.take 5) }

/-- `benchmark_estimate_time` with doubles read as exact rationals.  The
product `keys_per_second * thread_count` is formed in `uint64_t` before the
conversion to `double`.  (A zero divisor gives 0 here, where the C division
gives an infinity.) -/
def benchmark_estimate_time (pattern : Option Pattern) (thread_count : Nat)
    (keys_per_second : Nat) : ℚ :=
  match pattern with
  | none => 0
  | some p =>
    if keys_per_second = 0 then 0
    else if pattern_probability p ≤ 0 then 0
    else (1 / pattern_probability p) / (((keys_per_second * thread_count) % 2 ^ 64 : Nat) : ℚ)

/-! ## privkey.c: reading a WIF text -/

/-- What `privkey_from_wif` takes from outside the repository sources: the
base58check decoder (the decoded bytes, or `none` when it returns a negative
length) and the constant `PRIVKEY_UNCOMPRESSED_FLAG`. -/
structure ExternDecode where
  base58check_decode : CStr → Option (List Nat)
  PRIVKEY_UNCOMPRESSED_FLAG : Nat

/-- The payload `p[0 .. len - 1]` that `privkey_to_wif` hands to the
encoder. -/
def wif_payload (x : Extern) (key : PrivKey) : List Nat :=
  (if x.network_is_main then MAINNET_PREFIX
    else if x.network_is_test then TESTNET_PREFIX else x.stack_byte)
    :: key.data.take x.PRIVKEY_LENGTH ++
    (if privkey_is_compressed x key then [x.PRIVKEY_COMPRESSED_FLAG] else [])

/-- `privkey_from_wif(key, wif)`: the return value, the key afterwards, and
the network the call selects (`some true` main, `some false` test, `none`
when it selects none). -/
def privkey_from_wif (x : Extern) (dx : ExternDecode) (key : PrivKey) (wif : CStr) :
    Int × PrivKey × Option Bool :=
  match dx.base58check_decode wif with
  | none => (-1, key, none)
  | some p =>
    if p.length ≠ x.PRIVKEY_LENGTH + 1 ∧ p.length ≠ x.PRIVKEY_LENGTH + 2 then (-1, key, none)
    else if p.head? ≠ some MAINNET_PREFIX ∧ p.head? ≠ some TESTNET_PREFIX then (-1, key, none)
    else if p.length = x.PRIVKEY_LENGTH + 2 then
      if p.getLast? = some x.PRIVKEY_COMPRESSED_FLAG then
        (1, ⟨(p.drop 1).take x.PRIVKEY_LENGTH ++ key.data.drop x.PRIVKEY_LENGTH,
          x.PRIVKEY_COMPRESSED_FLAG⟩, some (p.head? = some MAINNET_PREFIX))
      else (-1, key, some (p.head? = some MAINNET_PREFIX))
    else
      (1, ⟨(p.drop 1).take x.PRIVKEY_LENGTH ++ key.data.drop x.PRIVKEY_LENGTH,
        dx.PRIVKEY_UNCOMPRESSED_FLAG⟩, some (p.head? = some MAINNET_PREFIX))

/-- A sample decoder, inverse of the encoder of `sample_encoder`, with the
uncompressed flag 0. -/
def sample_decoder : ExternDecode :=
  { base58check_decode := fun w => some w
    PRIVKEY_UNCOMPRESSED_FLAG := 0 }

/-! ## pattern.c: `match_wildcard` with the segment array read by index -/

/-- The loop of `match_wildcard` with `segments[...]` read by index, as the
source writes it: `i` is the loop index, `s` the position in the candidate,
and `fuel` bounds the passes of the outer loop (each pass increases `i`).  A
read `segments[j]` with `j` outside `0 .. segment_count - 1` gives `none`;
the index `segment_count - 1` of the final test is formed in `size_t` and is
outside the array when `segment_count` is 0.  The read of `segments[i]` after
the increment of the wildcard branch is made whether or not the inner loop
makes a pass. -/
def wildcard_walk_at (segments : List pattern_segment_t) : Nat → Nat → CStr → Option Bool
  | 0, _, _ => none
  | fuel + 1, i, s =>
    if i < segments.length then
      match segments[i]? with
      | none => none
      | some seg =>
        if seg.is_wildcard then
          if i = segments.length - 1 then some true
          else
            match segments[i + 1]? with
            | none => none
            | some nxt =>
              match wildcard_scan nxt s with
              | none => some false
              | some s' => wildcard_walk_at segments fuel (i + 2) s'
        else if strncmp s seg.str seg.len ≠ 0 then some false
        else wildcard_walk_at segments fuel (i + 1) (s.drop seg.len)
    else if s = [] then some true
    else if segments.length = 0 then none
    else (segments[segments.length - 1]?).map (·.is_wildcard)

/-- `match_wildcard` by index, from `i = 0`. -/
def match_wildcard_at (segments : List pattern_segment_t) (str : CStr) : Option Bool :=
  wildcard_walk_at segments (segments.length + 1) 0 str

/-! ## pattern.c: `pattern_describe` -/

/-- `snprintf(buf, size, ...)` on a buffer given by its bytes, `text` being
the formatted output: with `size ≥ 1` the first `size - 1` bytes of
the output are stored, then a NUL byte, and the bytes after that keep their
values; with `size = 0` nothing is stored. -/
def snprintf (buf : List Nat) (size : Nat) (text : CStr) : List Nat :=
  if size = 0 then buf
  else text.take (size - 1) ++ 0 :: buf.drop ((text.take (size - 1)).length + 1)

/-- The C string a buffer holds: its bytes before the first NUL. -/
def buffer_text (buf : List Nat) : CStr := buf.takeWhile (· ≠ 0)

/-- `pattern_describe(pattern, buf, size)`: the return value and the bytes of
the buffer afterwards. -/
def pattern_describe (pattern : Option Pattern) (buf : Option (List Nat)) (size : Nat) :
    Int × Option (List Nat) :=
  match pattern, buf with
  | some p, some b =>
    if size = 0 then (-1, some b)
    else
      match p with
      | .PREFIX _ str _ => (0, some (snprintf b size (cstr "Prefix: " ++ str)))
      | .SUFFIX _ str _ => (0, some (snprintf b size (cstr "Suffix: " ++ str)))
      | .CONTAINS _ str _ => (0, some (snprintf b size (cstr "Contains: " ++ str)))
      | .EXACT _ str _ => (0, some (snprintf b size (cstr "Exact: " ++ str)))
      | .REGEX _ _ _ => (0, some (snprintf b size (cstr "Regex pattern")))
      | .WILDCARD _ _ => (0, some (snprintf b size (cstr "Wildcard pattern")))
      | .MULTI _ _ type =>
        (0, some (snprintf b size (cstr "Multi-pattern (" ++
          (if type = .PATTERN_COMBINE_AND then cstr "AND" else cstr "OR") ++ cstr ")")))
      | .ALTERNATION _ _ => (0, some (snprintf b size (cstr "Alternation pattern")))
  | _, _ => (-1, buf)

/-- The description of a pattern: the text its `snprintf` call formats. -/
def description : Pattern → CStr
  | .PREFIX _ str _ => cstr "Prefix: " ++ str
  | .SUFFIX _ str _ => cstr "Suffix: " ++ str
  | .CONTAINS _ str _ => cstr "Contains: " ++ str
  | .EXACT _ str _ => cstr "Exact: " ++ str
  | .REGEX _ _ _ => cstr "Regex pattern"
  | .WILDCARD _ _ => cstr "Wildcard pattern"
  | .MULTI _ _ .PATTERN_COMBINE_AND => cstr "Multi-pattern (AND)"
  | .MULTI _ _ .PATTERN_COMBINE_OR => cstr "Multi-pattern (OR)"
  | .ALTERNATION _ _ => cstr "Alternation pattern"

/-! ## vanity.c: progress rate and elapsed time -/

/-- The `elapsed_ms` of the progress check of `search_thread` (lines
157-158); `/` on `long` truncates towards zero. -/
def progress_elapsed_ms (s : VanitySearch) (now : TimeVal) : Int :=
  (now.sec - s.last_progress.sec) * 1000 + Int.tdiv (now.sub - s.last_progress.sub) 1000

/-- The arguments `attempts` and `rate` of the callback invocation in the
progress check of `search_thread` (lines 155-167) at the clock reading
`now`: `none` when the callback is not invoked; the rate is `none` when the
division `current_attempts * 1000.0 / elapsed_ms` has the divisor 0. -/
def worker_progress_call (s : VanitySearch) (now : TimeVal) : Option (Nat × Option ℚ) :=
  match s.progress_callback with
  | none => none
  | some _ =>
    if progress_elapsed_ms s now ≥ s.progress_interval_ms then
      some (s.attempts,
        if progress_elapsed_ms s now = 0 then none
        else some ((s.attempts : ℚ) * 1000 / (progress_elapsed_ms s now : ℚ)))
    else none

/-- `vanity_get_elapsed`; `now` is the reading of
`clock_gettime(CLOCK_MONOTONIC)`.  The sum is formed in `long` (values that
fit it), `/` truncating towards zero, and converted to `uint64_t`. -/
def vanity_get_elapsed (search : Option VanitySearch) (now : TimeVal) : Nat :=
  match search with
  | none => 0
  | some s =>
    (((now.sec - s.start_time.sec) * 1000 +
      Int.tdiv (now.sub - s.start_time.sub) 1000000) % 2 ^ 64).toNat

/-- The exact time from `start` to `now` in nanoseconds. -/
def elapsed_ns (start now : TimeVal) : Int :=
  (now.sec - start.sec) * 1000000000 + (now.sub - start.sub)

/-! ## vanity.c: lifetime of the blocks a search state points to -/

/-- A pointer value as the lifetime model sees it: NULL, or the start of the
heap block `id`. -/
inductive Addr where
  | null
  | block (id : Nat)
  deriving DecidableEq, Repr

/-- A use of the heap that the allocator's contract forbids. -/
inductive MemFault where
  | use_after_free (id : Nat)
  | double_free (id : Nat)
  deriving DecidableEq, Repr

/-- The allocator's bookkeeping: the blocks allocated and not yet released,
the blocks released, the next fresh block, and the forbidden uses so far, in
order.  A forbidden use is recorded and the run goes on. -/
structure Heap where
  live : List Nat
  released : List Nat
  next : Nat
  faults : List MemFault
  deriving DecidableEq, Repr

/-- `calloc` / `strdup` (taken to succeed): a fresh block. -/
def heap_alloc (h : Heap) : Nat × Heap :=
  (h.next, { h with live := h.next :: h.live, next := h.next + 1 })

/-- `free(p)`. -/
def heap_free (h : Heap) (p : Addr) : Heap :=
  match p with
  | .null => h
  | .block id =>
    if id ∈ h.live then { h with live := h.live.erase id, released := id :: h.released }
    else { h with faults := h.faults ++ [.double_free id] }

/-- A read or write through `p`. -/
def heap_access (h : Heap) (p : Addr) : Heap :=
  match p with
  | .null => h
  | .block id =>
    if id ∈ h.live then h else { h with faults := h.faults ++ [.use_after_free id] }

/-- `pattern_free(pattern)` for a non-NULL pattern of type Prefix whose
`str.str` holds `str`: the switch reads the struct, then `free(pattern->str.str)`
and `free(pattern)`. -/
def pattern_free_blocks (h : Heap) (pattern : Addr) (str : Addr) : Heap :=
  heap_free (heap_free (heap_access h pattern) str) pattern

/-- The pointers of a search state that bear on lifetimes: the state block
itself, `pattern.str.str`, and `found_privkey`. -/
structure SearchBlocks where
  search : Addr
  pattern_str : Addr
  found_privkey : Addr
  deriving DecidableEq, Repr

/-- The allocations and releases of a successful `vanity_init` (lines
194-235): the state block, the compiled pattern and its text, the `memcpy`
of the struct (which copies the pointer `str.str`), `pattern_free` on the
compiled pattern, and the result key that `privkey_new(&s->found_privkey)`
stores. -/
def vanity_init_blocks (h : Heap) : SearchBlocks × Heap :=
  let s := heap_alloc h
  let compiled_pattern := heap_alloc s.2
  let text := heap_alloc compiled_pattern.2
  let h1 := pattern_free_blocks text.2 (.block compiled_pattern.1) (.block text.1)
  let key := heap_alloc h1
  (⟨.block s.1, .block text.1, .block key.1⟩, key.2)

/-- The reads of `pattern_match(&search->pattern, ...)` in a worker (line
140) for a Prefix pattern: the struct inside the state block, then the text
`pattern->str.str`. -/
def worker_pattern_reads (h : Heap) (m : SearchBlocks) : Heap :=
  heap_access (heap_access h m.search) m.pattern_str

/-- The releases of `vanity_cleanup` (lines 335-339).  `&search->pattern` is
the address of the first member of the state, hence the address of the state
block; `privkey_free(search->found_privkey)` and `pthread_mutex_destroy`
read the state block. -/
def vanity_cleanup_blocks (h : Heap) (m : SearchBlocks) : Heap :=
  let h1 := pattern_free_blocks h m.search m.pattern_str
  let h2 := heap_free (heap_access h1 m.search) m.found_privkey
  heap_free (heap_access h2 m.search) m.search

/-- The heap before anything is allocated. -/
def empty_heap : Heap := ⟨[], [], 0, []⟩

/-! ## mods/gd_vanity.c: the worker of the search module -/

/-- `MAX_PATTERN_LENGTH` of `gd_vanity.c`. -/
def MAX_PATTERN_LENGTH : Nat := 128

/-- The file-scope variables of `gd_vanity.c` that a worker reads or writes. -/
structure GdVanityState where
  pattern_buf : CStr
  case_sensitive_match : Bool
  found : Bool
  result_wif : CStr
  result_address : CStr
  total_attempts : Nat
  deriving DecidableEq, Repr

/-- `strncpy(dst, src, n); dst[n] = 0` into a buffer of `n + 1` bytes: the
text the buffer holds afterwards. -/
def strncpy_text (src : CStr) (n : Nat) : CStr := src.take n

/-- The static `pattern_match(address)` of `gd_vanity.c`; `address` is
`none` for NULL.  An address has its version character, which `address++`
skips; the two local buffers hold 34 and 127 characters. -/
def GdVanity.pattern_match (g : GdVanityState) (address : Option CStr) : Bool :=
  match address with
  | none => false
  | some a =>
    if g.pattern_buf = [] then false
    else if g.case_sensitive_match then (strstr (a.drop 1) g.pattern_buf).isSome
    else
      (strstr ((strncpy_text (a.drop 1) 34).map tolower)
        ((strncpy_text g.pattern_buf (MAX_PATTERN_LENGTH - 1)).map tolower)).isSome

/-- One pass of the `while` loop of `thread_worker` (lines 129-190): the
variables afterwards and whether the pass ends with `break`.  `key` is the
key `privkey_new` generates; it and the routines of the deriver are `none`
when they return a negative value.  The progress callback does not touch the
variables. -/
def GdVanity.thread_worker_pass (x : Extern) (d : Deriver) (g : GdVanityState)
    (key : Option PrivKey) : GdVanityState × Bool :=
  match key with
  | none => (g, false)
  | some privkey =>
    match d.pubkey_get privkey with
    | none => (g, false)
    | some pubkey =>
      match d.address_get_p2pkh pubkey with
      | none => (g, false)
      | some address =>
        if GdVanity.pattern_match g (some address) then
          if (privkey_to_wif x [] privkey).1 < 0 then (g, false)
          else if !g.found then
            ({ g with
                result_wif := strncpy_text (privkey_to_wif x [] privkey).2 52
                result_address := strncpy_text address 34
                found := true }, true)
          else (g, true)
        else ({ g with total_attempts := (g.total_attempts + 1) % 2 ^ 64 }, false)

/-- What one pass of the loop of `thread_worker` takes from outside: the
value of `ctx->should_exit` that the loop test reads and the key that
`privkey_new` generates. -/
structure WorkerInput where
  should_exit : Bool
  key : Option PrivKey
  deriving DecidableEq, Repr

/-- The `while` loop of `thread_worker` over the given passes: the variables
when the worker leaves the loop, or `none` when it is still in the loop after
the last pass given. -/
def GdVanity.thread_worker_loop (x : Extern) (d : Deriver) :
    GdVanityState → List WorkerInput → Option GdVanityState
  | _, [] => none
  | g, i :: rest =>
    if i.should_exit || g.found then some g
    else if (GdVanity.thread_worker_pass x d g i.key).2 then
      some (GdVanity.thread_worker_pass x d g i.key).1
    else GdVanity.thread_worker_loop x d (GdVanity.thread_worker_pass x d g i.key).1 rest

/-- Sample variables of `gd_vanity.c`: the pattern `ab`, case-insensitive, no
result yet. -/
def sample_gd_state : GdVanityState := ⟨cstr "ab", false, false, [], [], 0⟩

/-! ## Observations on search states -/

/-- The result slot of a search state: secret bytes, compressed flag, public
key and address of the recorded winner. -/
def result_slot (s : VanitySearch) : List Nat × Nat × PubKey × CStr :=
  (s.found_privkey.data, s.found_privkey.cflag, s.found_pubkey, s.found_address)

/-- Number of match-site steps, along a sequence of candidates, at which
`found` goes from `false` to `true`. -/
def found_flips (x : Extern) : VanitySearch → List Candidate → Nat
  | _, [] => 0
  | s, c :: cs =>
    (if !s.found && (worker_match_site x s c).found then 1 else 0)
      + found_flips x (worker_match_site x s c) cs

/-- Sample values of the outside constants: 32-byte keys, flag `0x01`,
mainnet, and an encoder that fails on every input. -/
def sample_extern : Extern :=
  { PRIVKEY_LENGTH := 32
    PRIVKEY_COMPRESSED_FLAG := 1
    PRIVKEY_WIF_LENGTH_MIN := 51
    network_is_main := true
    network_is_test := false
    base58check_encode := fun _ => none
    stack_byte := 0 }

/-- The state `vanity_init` builds for the text `ab`, case-sensitive, two
threads, with an all-zero result key. -/
def sample_search : VanitySearch :=
  { pattern := .PREFIX true (cstr "ab") 2
    case_sensitive := true
    num_threads := 2
    found := false
    stopped := false
    attempts := 0
    start_time := ⟨0, 0⟩
    found_privkey := ⟨List.replicate 32 0, 1⟩
    found_pubkey := ⟨[]⟩
    found_address := []
    progress_callback := none
    progress_user_data := 0
    progress_interval_ms := 0
    last_progress := ⟨0, 0⟩
    contexts := List.replicate VANITY_MAX_THREADS ⟨0, false⟩ }

/-- A candidate whose address, `1abXYZ`, starts with `ab` after the version
byte. -/
def sample_candidate : Candidate :=
  { privkey := ⟨List.replicate 32 7, 1⟩, pubkey := ⟨[2, 3]⟩, address := cstr "1abXYZ" }

/-- The glob language as the specification words it, anchored at both ends:
`glob_language t s` holds when `s` is the text `t` with every `*` replaced by
some run of bytes, possibly empty, and every other byte kept as it is. -/
def glob_language : CStr → CStr → Bool
  | [], s => s = []
  | c :: t, s =>
    if c = STAR then s.tails.any (glob_language t)
    else
      match s with
      | [] => false
      | d :: v => d = c && glob_language t v

/-- What a segment list describes: a literal segment stands for the first
`len` bytes of its text, a wildcard segment for any run of bytes. -/
def segments_accept : List pattern_segment_t → CStr → Prop
  | [], s => s = []
  | g :: rest, s =>
    if g.is_wildcard then ∃ u v, s = u ++ v ∧ segments_accept rest v
    else ∃ v, s = g.str.take g.len ++ v ∧ segments_accept rest v

/-! ## Facts about the libc routines -/

theorem strncmp_eq_zero_iff (a b : CStr) (n : Nat) :
    strncmp a b n = 0 ↔ a.take n = b.take n := by
  induction n generalizing a b with
  | zero => simp [strncmp]
  | succ n ih =>
    cases a with
    | nil => cases b <;> simp [strncmp]
    | cons x xs =>
      cases b with
      | nil => simp [strncmp]
      | cons y ys =>
        simp only [strncmp, List.take_succ_cons, List.cons.injEq]
        by_cases h : x = y
        · simp [h, ih]
        · simp only [h, if_false, false_and, iff_false]
          split <;> simp

theorem strcmp_eq_zero_iff (a b : CStr) : strcmp a b = 0 ↔ a = b := by
  induction a generalizing b with
  | nil => cases b <;> simp [strcmp]
  | cons x xs ih =>
    cases b with
    | nil => simp [strcmp]
    | cons y ys =>
      simp only [strcmp, List.cons.injEq]
      by_cases h : x = y
      · simp [h, ih]
      · simp only [h, if_false, false_and, iff_false]
        split <;> simp

theorem strncmp_length_eq_zero_iff (s t : CStr) :
    strncmp s t t.length = 0 ↔ t <+: s := by
  rw [strncmp_eq_zero_iff, List.take_length]
  constructor
  · intro h
    rw [← h]
    exact List.take_prefix _ _
  · intro h
    exact List.prefix_iff_eq_take.mp h |>.symm

theorem strstr_isSome_iff (h t : CStr) : (strstr h t).isSome = true ↔ t <:+: h := by
  induction h with
  | nil =>
    simp only [strstr]
    split <;> simp_all
  | cons c cs ih =>
    simp only [strstr]
    split
    · rename_i hp
      rw [strncmp_length_eq_zero_iff] at hp
      simp only [Option.isSome_some, true_iff]
      exact hp.isInfix
    · rename_i hp
      rw [strncmp_length_eq_zero_iff] at hp
      rw [ih, List.infix_cons_iff]
      simp [hp]

/-! ## Simple patterns, case-sensitive -/

theorem match_prefix_sensitive (t s : CStr) :
    pattern_match (.PREFIX true t (strlen t)) s = some (decide (t <+: s)) := by
  simp only [pattern_match, strlen, if_true]
  split
  · rename_i hlt
    have : ¬ t <+: s := fun hp => by have := hp.length_le; omega
    simp [this]
  · congr 1
    rw [Bool.eq_iff_iff]
    simp [strncmp_length_eq_zero_iff]

theorem match_suffix_sensitive (t s : CStr) :
    pattern_match (.SUFFIX true t (strlen t)) s = some (decide (t <:+ s)) := by
  simp only [pattern_match, strlen, if_true]
  split
  · rename_i hlt
    have : ¬ t <:+ s := fun hp => by have := hp.length_le; omega
    simp [this]
  · rename_i hge
    congr 1
    rw [Bool.eq_iff_iff]
    simp only [beq_iff_eq, strcmp_eq_zero_iff, decide_eq_true_eq]
    constructor
    · intro h
      rw [← h]
      exact List.drop_suffix _ _
    · intro h
      obtain ⟨u, rfl⟩ := h
      simp

theorem match_contains_sensitive (t s : CStr) (len : Nat) :
    pattern_match (.CONTAINS true t len) s = some (decide (t <:+: s)) := by
  simp only [pattern_match, if_true]
  congr 1
  rw [Bool.eq_iff_iff]
  simp [strstr_isSome_iff]

theorem match_exact_sensitive (t s : CStr) (len : Nat) :
    pattern_match (.EXACT true t len) s = some (decide (s = t)) := by
  simp only [pattern_match, if_true]
  congr 1
  rw [Bool.eq_iff_iff]
  simp [strcmp_eq_zero_iff]

/-- C4: for a case-sensitive pattern that `pattern_compile` returns for a
text `t`, `pattern_match` on a candidate `s` is defined and tells whether `s`
starts with `t` (Prefix), ends with `t` (Suffix), has `t` as a contiguous
substring (Contains), or equals `t` (Exact). -/
theorem pattern_match_simple_sensitive (regcomp : CStr → Bool → Option regex_t)
    (t s : CStr) (type : pattern_type_t) (p : Pattern)
    (h : pattern_compile regcomp (some t) type true = .ok p) :
    (type = .PATTERN_TYPE_PREFIX → pattern_match p s = some (decide (t <+: s))) ∧
    (type = .PATTERN_TYPE_SUFFIX → pattern_match p s = some (decide (t <:+ s))) ∧
    (type = .PATTERN_TYPE_CONTAINS → pattern_match p s = some (decide (t <:+: s))) ∧
    (type = .PATTERN_TYPE_EXACT → pattern_match p s = some (decide (s = t))) := by
  unfold pattern_compile at h
  simp only at h
  split at h
  · cases h
  · refine ⟨?_, ?_, ?_, ?_⟩ <;> intro hty <;> subst hty <;> simp only at h <;>
      injection h with h <;> subst h
    · exact match_prefix_sensitive t s
    · exact match_suffix_sensitive t s
    · exact match_contains_sensitive t s _
    · exact match_exact_sensitive t s _

/-- C4 at concrete inputs: the Suffix pattern of `XYZ` accepts `1abXYZ`. -/
theorem pattern_match_simple_sensitive_witness :
    pattern_match (.SUFFIX true (cstr "XYZ") 3) (cstr "1abXYZ")
      = some (decide (cstr "XYZ" <:+ cstr "1abXYZ")) :=
  (pattern_match_simple_sensitive (fun _ _ => none) (cstr "XYZ") (cstr "1abXYZ")
    .PATTERN_TYPE_SUFFIX (.SUFFIX true (cstr "XYZ") 3) (by rfl)).2.1 rfl

/-! ## Multi patterns -/

theorem pattern_match_all_iff (ps : List Pattern) (s : CStr) :
    pattern_match_all ps s = some true ↔ ∀ q ∈ ps, pattern_match q s = some true := by
  induction ps with
  | nil => simp [pattern_match_all]
  | cons p ps ih =>
    simp only [pattern_match_all, List.mem_cons, forall_eq_or_imp]
    split
    · rename_i hp
      simp [hp]
    · rename_i hp
      simp [hp]
    · rename_i hp
      simp [hp, ih]

theorem pattern_match_any_iff (ps : List Pattern) (s : CStr)
    (hdef : ∀ q ∈ ps, pattern_match q s ≠ none) :
    pattern_match_any ps s = some true ↔ ∃ q ∈ ps, pattern_match q s = some true := by
  induction ps with
  | nil => simp [pattern_match_any]
  | cons p ps ih =>
    have ih := ih (fun q hq => hdef q (List.mem_cons_of_mem _ hq))
    simp only [pattern_match_any, List.mem_cons, exists_eq_or_imp]
    split
    · rename_i hp
      exact absurd hp (hdef p (List.mem_cons_self _ _))
    · rename_i hp
      simp [hp]
    · rename_i hp
      simp [hp, ih]

theorem compile_exact_ok (regcomp : CStr → Bool → Option regex_t) (t : Option CStr)
    (cs : Bool) (p : Pattern)
    (h : pattern_compile regcomp t .PATTERN_TYPE_EXACT cs = .ok p) :
    ∃ text, t = some text ∧ text.length ≤ PATTERN_MAX_LENGTH ∧
      p = .EXACT cs text text.length := by
  unfold pattern_compile at h
  cases t with
  | none => cases h
  | some text =>
    simp only [strlen] at h
    split at h
    · cases h
    · rename_i hlen
      injection h with h
      exact ⟨text, rfl, by omega, h.symm⟩

theorem compile_multi_loop_ok (regcomp : CStr → Bool → Option regex_t) (cs : Bool)
    (texts : List (Option CStr)) (ps : List Pattern)
    (h : compile_multi_loop regcomp cs texts = .ok ps) :
    List.Forall₂ (fun t p => ∃ text, t = some text ∧ text.length ≤ PATTERN_MAX_LENGTH ∧
      p = Pattern.EXACT cs text text.length) texts ps := by
  induction texts generalizing ps with
  | nil =>
    simp only [compile_multi_loop] at h
    injection h with h
    subst h
    exact List.Forall₂.nil
  | cons t ts ih =>
    simp only [compile_multi_loop] at h
    split at h
    · cases h
    · rename_i p hp
      split at h
      · cases h
      · rename_i qs hqs
        injection h with h
        subst h
        exact List.Forall₂.cons (compile_exact_ok regcomp t cs p hp) (ih qs hqs)

theorem compile_multi_ok (regcomp : CStr → Bool → Option regex_t)
    (patterns : Option (List (Option CStr))) (ct : pattern_combine_t) (cs : Bool)
    (p : Pattern) (h : pattern_compile_multi regcomp patterns ct cs = .ok p) :
    ∃ texts ps, patterns = some texts ∧ 1 ≤ texts.length ∧
      texts.length ≤ PATTERN_MAX_MULTI ∧ p = .MULTI cs ps ct ∧
      List.Forall₂ (fun t p => ∃ text, t = some text ∧ text.length ≤ PATTERN_MAX_LENGTH ∧
        p = Pattern.EXACT cs text text.length) texts ps := by
  unfold pattern_compile_multi at h
  cases patterns with
  | none => cases h
  | some texts =>
    simp only at h
    split at h
    · cases h
    · rename_i hlen
      split at h
      · cases h
      · rename_i ps hps
        injection h with h
        exact ⟨texts, ps, rfl, by omega, by omega, h.symm,
          compile_multi_loop_ok regcomp cs texts ps hps⟩

theorem forall₂_exists_of_mem_right {α β : Type} {R : α → β → Prop} {l₁ : List α}
    {l₂ : List β} (h : List.Forall₂ R l₁ l₂) : ∀ b ∈ l₂, ∃ a ∈ l₁, R a b := by
  induction h with
  | nil => simp
  | cons hab _ ih =>
    intro b hb
    rcases List.mem_cons.mp hb with rfl | hb
    · exact ⟨_, List.mem_cons_self _ _, hab⟩
    · obtain ⟨a, ha, hr⟩ := ih b hb
      exact ⟨a, List.mem_cons_of_mem _ ha, hr⟩

theorem exact_match_defined (cs : Bool) (t : CStr) (len : Nat) (s : CStr) :
    pattern_match (.EXACT cs t len) s ≠ none := by
  simp [pattern_match]

/-- C1: a Multi pattern that `pattern_compile_multi` returns holds
sub-patterns `ps`, one per text; with AND it accepts a candidate exactly when
every sub-pattern accepts it, with OR exactly when at least one does. -/
theorem multi_match_iff (regcomp : CStr → Bool → Option regex_t)
    (patterns : Option (List (Option CStr))) (ct : pattern_combine_t) (cs : Bool)
    (p : Pattern) (s : CStr)
    (h : pattern_compile_multi regcomp patterns ct cs = .ok p) :
    ∃ ps, p = .MULTI cs ps ct ∧ (∀ texts, patterns = some texts → ps.length = texts.length) ∧
      (ct = .PATTERN_COMBINE_AND →
        (pattern_match p s = some true ↔ ∀ q ∈ ps, pattern_match q s = some true)) ∧
      (ct = .PATTERN_COMBINE_OR →
        (pattern_match p s = some true ↔ ∃ q ∈ ps, pattern_match q s = some true)) := by
  obtain ⟨texts, ps, hpat, _, _, hp, hall⟩ := compile_multi_ok regcomp patterns ct cs p h
  refine ⟨ps, hp, ?_, ?_, ?_⟩
  · intro texts' ht
    rw [hpat] at ht
    injection ht with ht
    subst ht
    exact hall.length_eq.symm
  · intro hct
    subst hct hp
    simp only [pattern_match]
    exact pattern_match_all_iff ps s
  · intro hct
    subst hct hp
    simp only [pattern_match]
    apply pattern_match_any_iff
    intro q hq
    obtain ⟨t, _, text, _, _, hqe⟩ := forall₂_exists_of_mem_right hall q hq
    subst hqe
    exact exact_match_defined _ _ _ _

/-- C1 at concrete inputs: the AND pattern of the texts `ABC` and `XYZ`. -/
theorem multi_match_iff_witness :
    ∃ ps, Pattern.MULTI true [.EXACT true (cstr "ABC") 3, .EXACT true (cstr "XYZ") 3]
        .PATTERN_COMBINE_AND = .MULTI true ps .PATTERN_COMBINE_AND ∧
      (∀ texts, some [some (cstr "ABC"), some (cstr "XYZ")] = some texts →
        ps.length = texts.length) ∧
      (pattern_combine_t.PATTERN_COMBINE_AND = .PATTERN_COMBINE_AND →
        (pattern_match (.MULTI true [.EXACT true (cstr "ABC") 3, .EXACT true (cstr "XYZ") 3]
            .PATTERN_COMBINE_AND) (cstr "ABC") = some true ↔
          ∀ q ∈ ps, pattern_match q (cstr "ABC") = some true)) ∧
      (pattern_combine_t.PATTERN_COMBINE_AND = .PATTERN_COMBINE_OR →
        (pattern_match (.MULTI true [.EXACT true (cstr "ABC") 3, .EXACT true (cstr "XYZ") 3]
            .PATTERN_COMBINE_AND) (cstr "ABC") = some true ↔
          ∃ q ∈ ps, pattern_match q (cstr "ABC") = some true)) :=
  multi_match_iff (fun _ _ => none) (some [some (cstr "ABC"), some (cstr "XYZ")])
    .PATTERN_COMBINE_AND true _ (cstr "ABC") rfl

/-! ## Alternation patterns -/

theorem charclass_has_iff (cs : Bool) (cl : pattern_charclass_t) (c : Nat) :
    charclass_has cs cl c = true ↔
      ∃ p ∈ cl.chars.take cl.count,
        (if cs then c else tolower c) = (if cs then p else tolower p) := by
  simp [charclass_has, List.any_eq_true]

theorem match_alternation_iff (cs : Bool) (classes : List pattern_charclass_t) (s : CStr) :
    match_alternation cs classes s = true ↔
      List.Forall₂ (fun c cl => charclass_has cs cl c = true) s classes := by
  induction classes generalizing s with
  | nil => simp [match_alternation]
  | cons cl cls ih =>
    cases s with
    | nil => simp [match_alternation]
    | cons c s => simp [match_alternation, ih]

/-- C3: an Alternation pattern with classes `c_0 .. c_{n-1}` accepts a
candidate `s` exactly when `s` has length `n` and every `s[i]` is one of the
`count` characters in use of `c_i`, both sides lower-cased first when the
pattern is case-insensitive; the matcher always returns a value. -/
theorem alternation_match_iff (cs : Bool) (classes : List pattern_charclass_t) (s : CStr) :
    pattern_match (.ALTERNATION cs classes) s ≠ none ∧
    (pattern_match (.ALTERNATION cs classes) s = some true ↔
      s.length = classes.length ∧
      ∀ i (hs : i < s.length) (hc : i < classes.length),
        ∃ p ∈ (classes.get ⟨i, hc⟩).chars.take (classes.get ⟨i, hc⟩).count,
          (if cs then s.get ⟨i, hs⟩ else tolower (s.get ⟨i, hs⟩))
            = (if cs then p else tolower p)) := by
  refine ⟨by simp [pattern_match], ?_⟩
  simp only [pattern_match, Option.some.injEq, match_alternation_iff, List.forall₂_iff_get,
    charclass_has_iff]

/-! ## Wildcard patterns -/

theorem glob_language_star (t s : CStr) :
    glob_language (STAR :: t) s = true ↔ ∃ u v, s = u ++ v ∧ glob_language t v = true := by
  simp only [glob_language, if_true, List.any_eq_true, List.mem_tails]
  constructor
  · rintro ⟨v, ⟨u, rfl⟩, hv⟩
    exact ⟨u, v, rfl, hv⟩
  · rintro ⟨u, v, rfl, hv⟩
    exact ⟨v, ⟨u, rfl⟩, hv⟩

theorem glob_language_literal (l t s : CStr) (hl : STAR ∉ l) :
    glob_language (l ++ t) s = true ↔ ∃ v, s = l ++ v ∧ glob_language t v = true := by
  induction l generalizing s with
  | nil => simp
  | cons c l ih =>
    have hc : c ≠ STAR := fun h => hl (by simp [h])
    have hl' : STAR ∉ l := fun h => hl (List.mem_cons_of_mem _ h)
    cases s with
    | nil => simp [glob_language, hc]
    | cons d s =>
      have hstep : glob_language (c :: l ++ t) (d :: s)
          = (decide (d = c) && glob_language (l ++ t) s) := by
        simp [glob_language, hc]
      rw [hstep, Bool.and_eq_true, decide_eq_true_eq, ih s hl']
      constructor
      · rintro ⟨rfl, v, rfl, hv⟩
        exact ⟨v, rfl, hv⟩
      · rintro ⟨v, hs, hv⟩
        injection hs with h1 h2
        exact ⟨h1, v, h2, hv⟩

theorem strncmp_zero_split (s t : CStr) (n : Nat) (h : strncmp s t n = 0) :
    s = t.take n ++ s.drop n := by
  rw [strncmp_eq_zero_iff] at h
  rw [← h, List.take_append_drop]

theorem wildcard_scan_some (g : pattern_segment_t) (s s' : CStr)
    (h : wildcard_scan g s = some s') : ∃ u, s = u ++ (g.str.take g.len ++ s') := by
  induction s with
  | nil => simp [wildcard_scan] at h
  | cons c cs ih =>
    simp only [wildcard_scan] at h
    split at h
    · rename_i h0
      injection h with h
      subst h
      exact ⟨[], by simpa using strncmp_zero_split _ _ _ h0⟩
    · obtain ⟨u, hu⟩ := ih h
      exact ⟨c :: u, by simp [hu]⟩

theorem getLast?_cons_of_some {α : Type} (a : α) (l : List α) (g : α)
    (h : l.getLast? = some g) : (a :: l).getLast? = some g := by
  cases l with
  | nil => simp at h
  | cons b l => rw [List.getLast?_cons_cons]; exact h

/-- Soundness of the outer loop of `match_wildcard`, for a list and for the
list with one more segment in front (the wildcard branch skips two). -/
theorem wildcard_walk_sound_aux (last : Option Bool) (segs : List pattern_segment_t) :
    (∀ s, (∀ g, segs.getLast? = some g → last = some g.is_wildcard) →
      wildcard_walk last segs s = some true →
      segments_accept segs s ∨ (segs = [] ∧ last = some true)) ∧
    (∀ g0 s, (∀ g, (g0 :: segs).getLast? = some g → last = some g.is_wildcard) →
      wildcard_walk last (g0 :: segs) s = some true →
      segments_accept (g0 :: segs) s) := by
  induction segs with
  | nil =>
    refine ⟨?_, ?_⟩
    · intro s _ h
      simp only [wildcard_walk] at h
      split at h
      · rename_i hs
        exact Or.inl (by simpa [segments_accept] using hs)
      · exact Or.inr ⟨rfl, h⟩
    · intro g0 s hlast h
      have hl := hlast g0 (by simp)
      simp only [wildcard_walk] at h
      split at h
      · rename_i hw
        simp only [segments_accept, hw, if_true]
        exact ⟨s, [], by simp, rfl⟩
      · rename_i hw
        split at h
        · cases h
        · rename_i h0
          split at h
          · rename_i hs
            have h0' : strncmp s g0.str g0.len = 0 := by simpa using h0
            simp only [segments_accept, hw]
            refine ⟨s.drop g0.len, strncmp_zero_split _ _ _ h0', hs⟩
          · rw [hl] at h
            simp [hw] at h
  | cons g1 rest ih =>
    obtain ⟨ih1, ih2⟩ := ih
    have key : ∀ g0 s, (∀ g, (g0 :: g1 :: rest).getLast? = some g →
        last = some g.is_wildcard) →
        wildcard_walk last (g0 :: g1 :: rest) s = some true →
        segments_accept (g0 :: g1 :: rest) s := by
      intro g0 s hlast h
      have hlast1 : ∀ g, (g1 :: rest).getLast? = some g → last = some g.is_wildcard :=
        fun g hg => hlast g (getLast?_cons_of_some _ _ _ hg)
      have hlast2 : ∀ g, rest.getLast? = some g → last = some g.is_wildcard :=
        fun g hg => hlast1 g (getLast?_cons_of_some _ _ _ hg)
      simp only [wildcard_walk] at h
      split at h
      · rename_i hw
        split at h
        · cases h
        · rename_i s' hscan
          obtain ⟨u, hu⟩ := wildcard_scan_some _ _ _ hscan
          have hrest : segments_accept (g1 :: rest) (g1.str.take g1.len ++ s') := by
            rcases ih1 s' hlast2 h with hacc | ⟨hnil, hl⟩
            · by_cases hw1 : g1.is_wildcard = true
              · simp only [segments_accept, hw1, if_true]
                exact ⟨_, _, rfl, hacc⟩
              · simp only [segments_accept, hw1]
                exact ⟨_, rfl, hacc⟩
            · subst hnil
              have hl1 := hlast1 g1 (by simp)
              rw [hl] at hl1
              have hw1 : g1.is_wildcard = true := by
                injection hl1 with hl1
                exact hl1.symm
              simp only [segments_accept, hw1, if_true]
              exact ⟨g1.str.take g1.len ++ s', [], by simp, rfl⟩
          simp only [segments_accept, hw, if_true]
          exact ⟨u, _, hu, hrest⟩
      · rename_i hw
        split at h
        · cases h
        · rename_i h0
          have h0' : strncmp s g0.str g0.len = 0 := by simpa using h0
          have hacc := ih2 g1 (s.drop g0.len) hlast1 h
          simp only [segments_accept, hw]
          exact ⟨s.drop g0.len, strncmp_zero_split _ _ _ h0', hacc⟩
    refine ⟨?_, key⟩
    intro s hlast h
    exact Or.inl (ih2 g1 s hlast h)

theorem match_wildcard_sound (segs : List pattern_segment_t) (s : CStr)
    (h : match_wildcard segs s = some true) : segments_accept segs s := by
  unfold match_wildcard at h
  have hl : ∀ g, segs.getLast? = some g →
      (segs.getLast?.map (·.is_wildcard)) = some g.is_wildcard := by
    intro g hg
    simp [hg]
  rcases (wildcard_walk_sound_aux _ segs).1 s hl h with hacc | ⟨hnil, hlast⟩
  · exact hacc
  · subst hnil
    simp at hlast

theorem wildcard_parse_sound (t : CStr) :
    ∀ (run s : CStr), STAR ∉ run → segments_accept (wildcard_parse run t) s →
      glob_language (run ++ t) s = true := by
  induction t with
  | nil =>
    intro run s hrun h
    simp only [wildcard_parse] at h
    rw [glob_language_literal run [] s hrun]
    by_cases hr : run = []
    · subst hr
      simp only [ne_eq, not_true_eq_false, if_false, segments_accept] at h
      exact ⟨s, by simp, by simp [glob_language, h]⟩
    · simp only [ne_eq, hr, not_false_eq_true, if_true, segments_accept, literal_segment,
        List.take_length] at h
      obtain ⟨v, hs, hv⟩ := h
      exact ⟨v, by simpa using hs, by simp [glob_language, hv]⟩
  | cons c t ih =>
    intro run s hrun h
    simp only [wildcard_parse] at h
    by_cases hc : c = STAR
    · subst hc
      simp only [if_true] at h
      rw [glob_language_literal run _ s hrun]
      have hstar : ∀ v, segments_accept (star_segment :: wildcard_parse [] t) v →
          glob_language (STAR :: t) v = true := by
        intro v hv
        simp only [segments_accept, star_segment, if_true] at hv
        obtain ⟨u, w, hvw, hw⟩ := hv
        rw [glob_language_star]
        exact ⟨u, w, hvw, by simpa using ih [] w (by simp) hw⟩
      by_cases hr : run = []
      · subst hr
        simp only [ne_eq, not_true_eq_false, if_false, List.nil_append] at h
        exact ⟨s, by simp, hstar s h⟩
      · simp only [ne_eq, hr, not_false_eq_true, if_true, List.singleton_append,
          segments_accept, literal_segment, List.take_length] at h
        obtain ⟨v, hs, hv⟩ := h
        refine ⟨v, by simpa using hs, hstar v ?_⟩
        simpa [segments_accept, star_segment] using hv
    · simp only [hc, if_false] at h
      have hrun' : STAR ∉ run ++ [c] := by
        simp only [List.mem_append, List.mem_singleton, not_or]
        exact ⟨hrun, fun h => hc h.symm⟩
      have := ih (run ++ [c]) s hrun' h
      simpa using this

theorem compile_wildcard_ok (t : CStr) (cs : Bool) (p : Pattern)
    (h : compile_wildcard t cs = .ok p) :
    p = .WILDCARD cs (wildcard_parse [] t) ∧
      (wildcard_parse [] t).length ≤ wildcard_count t := by
  unfold compile_wildcard at h
  simp only at h
  split at h
  · rename_i hle
    injection h with h
    exact ⟨h.symm, hle⟩
  · cases h

/-- C5 fails on the code for Wildcard patterns: `match_wildcard` compares
with `strncmp` whatever `case_sensitive` says.  The text `ab*` compiled with
`case_sensitive = false` rejects `AB1` and accepts its lower-case form
`ab1`. -/
theorem wildcard_ignores_case_flag :
    pattern_compile (fun _ _ => none) (some (cstr "ab*")) .PATTERN_TYPE_WILDCARD false
        = .ok (.WILDCARD false [literal_segment (cstr "ab"), star_segment]) ∧
      pattern_match (.WILDCARD false [literal_segment (cstr "ab"), star_segment]) (cstr "AB1")
        = some false ∧
      pattern_match (.WILDCARD false [literal_segment (cstr "ab"), star_segment])
        ((cstr "AB1").map tolower) = some true := by
  refine ⟨rfl, by decide, by decide⟩

/-- C10 fails on the code: the OR pattern of two empty texts has probability
`1 + 1 = 2`; the OR branch of `pattern_probability` adds without clamping. -/
theorem multi_or_probability_exceeds_one :
    pattern_compile_multi (fun _ _ => none) (some [some [], some []]) .PATTERN_COMBINE_OR true
        = .ok (.MULTI true [.EXACT true [] 0, .EXACT true [] 0] .PATTERN_COMBINE_OR) ∧
      pattern_probability (.MULTI true [.EXACT true [] 0, .EXACT true [] 0] .PATTERN_COMBINE_OR)
        = 2 := by
  refine ⟨rfl, ?_⟩
  simp only [pattern_probability, probability_sum]
  norm_num

/-! ## The search coordinator -/

theorem step_pattern (x : Extern) (s : VanitySearch) (e : Event) :
    (step x s e).pattern = s.pattern := by
  cases e with
  | start created clock wall =>
    simp only [step, vanity_start]
    split <;> rfl
  | stop => rfl
  | set_progress_callback cb ud ms =>
    simp only [step, vanity_set_progress_callback]
    split
    · rfl
    · split <;> rfl
  | count_attempt => rfl
  | match_site c =>
    simp only [step, worker_match_site]
    split
    · split <;> rfl
    · rfl
  | progress now =>
    simp only [step, worker_progress]
    split
    · rfl
    · split <;> rfl
  | set_running thread running => rfl

theorem match_site_of_found (x : Extern) (s : VanitySearch) (c : Candidate)
    (h : s.found = true) : worker_match_site x s c = s := by
  simp [worker_match_site, h]

theorem match_site_found_mono (x : Extern) (s : VanitySearch) (c : Candidate)
    (h : (worker_match_site x s c).found = false) : worker_match_site x s c = s := by
  by_cases hm : pattern_match s.pattern (c.address.drop 1) = some true
  · by_cases hf : s.found = true
    · exact match_site_of_found x s c hf
    · exfalso
      have hf' : (!s.found) = true := by simpa using hf
      unfold worker_match_site at h
      rw [if_pos hm, if_pos hf'] at h
      cases h
  · unfold worker_match_site
    rw [if_neg hm]

theorem match_sites_of_found (x : Extern) (cs : List Candidate) :
    ∀ s : VanitySearch, s.found = true →
      cs.foldl (worker_match_site x) s = s ∧ found_flips x s cs = 0 := by
  induction cs with
  | nil => intro s _; exact ⟨rfl, rfl⟩
  | cons c cs ih =>
    intro s h
    have hs := match_site_of_found x s c h
    simp only [List.foldl_cons, found_flips, hs, h]
    exact ⟨(ih s h).1, by simpa using (ih s h).2⟩

theorem found_flips_le_one (x : Extern) (cs : List Candidate) :
    ∀ s : VanitySearch, found_flips x s cs ≤ 1 := by
  induction cs with
  | nil => intro s; simp [found_flips]
  | cons c cs ih =>
    intro s
    simp only [found_flips]
    by_cases h : (worker_match_site x s c).found = true
    · rw [(match_sites_of_found x cs _ h).2]
      split <;> simp
    · have h' : (worker_match_site x s c).found = false := by simpa using h
      simp only [h', Bool.and_false, Bool.false_eq_true, if_false, Nat.zero_add]
      exact ih _

/-- C7: along any sequence of match-site steps on a search state, `found`
goes from `false` to `true` at most once and is never cleared; a step taken
while `found` is set leaves the whole state, hence the result slot, as it
was; and a step that changes the result slot is the one that sets `found`. -/
theorem single_winner (x : Extern) (s : VanitySearch) (cs : List Candidate) :
    found_flips x s cs ≤ 1 ∧
    (∀ pre c post, cs = pre ++ c :: post →
      ((pre.foldl (worker_match_site x) s).found = true →
        worker_match_site x (pre.foldl (worker_match_site x) s) c
            = pre.foldl (worker_match_site x) s ∧
          cs.foldl (worker_match_site x) s = pre.foldl (worker_match_site x) s) ∧
      (result_slot (worker_match_site x (pre.foldl (worker_match_site x) s) c)
          ≠ result_slot (pre.foldl (worker_match_site x) s) →
        (pre.foldl (worker_match_site x) s).found = false ∧
          (worker_match_site x (pre.foldl (worker_match_site x) s) c).found = true)) := by
  refine ⟨found_flips_le_one x cs s, ?_⟩
  intro pre c post hcs
  refine ⟨?_, ?_⟩
  · intro hf
    refine ⟨match_site_of_found x _ c hf, ?_⟩
    rw [hcs, List.foldl_append]
    exact (match_sites_of_found x (c :: post) _ hf).1
  · intro hne
    by_cases hf : (pre.foldl (worker_match_site x) s).found = true
    · rw [match_site_of_found x _ c hf] at hne
      exact absurd rfl hne
    · by_cases hf' : (worker_match_site x (pre.foldl (worker_match_site x) s) c).found = true
      · exact ⟨by simpa using hf, hf'⟩
      · rw [match_site_found_mono x _ c (by simpa using hf')] at hne
        exact absurd rfl hne

/-- C8 fails as stated: after the sample search has recorded the winner
`1abXYZ`, `found` is set, yet `vanity_get_address` with a 34-byte buffer
returns -1 and leaves the buffer alone. -/
theorem get_address_small_buffer :
    (worker_match_site sample_extern sample_search sample_candidate).found = true ∧
      vanity_get_address (some (worker_match_site sample_extern sample_search sample_candidate))
        (some []) 34 = (-1, some []) ∧
      ¬ ((vanity_get_address
            (some (worker_match_site sample_extern sample_search sample_candidate))
            (some []) 34).1 = 0 ↔
          (worker_match_site sample_extern sample_search sample_candidate).found = true) := by
  refine ⟨by decide, by decide, by decide⟩

/-- C8, amended: `vanity_get_address` returns 0 exactly when the handle and
the buffer are present, the buffer has at least 35 bytes and `found` is set,
and then the buffer holds the recorded address; otherwise it returns -1 and
leaves the buffer as it was.  `vanity_get_wif` returns -1 and leaves the
buffer as it was unless the handle and the buffer are present, the buffer has
at least `PRIVKEY_WIF_LENGTH_MIN` bytes and `found` is set, and then it
returns what `privkey_to_wif` returns for the recorded key. -/
theorem getters_need_found (x : Extern) (search : Option VanitySearch)
    (buf : Option CStr) (size : Nat) :
    ((vanity_get_address search buf size).1 = 0 ↔
      ∃ s b, search = some s ∧ buf = some b ∧ 35 ≤ size ∧ s.found = true) ∧
    (∀ s b, search = some s → buf = some b → 35 ≤ size → s.found = true →
      vanity_get_address search buf size = (0, some s.found_address)) ∧
    ((vanity_get_address search buf size).1 ≠ 0 →
      vanity_get_address search buf size = (-1, buf)) ∧
    (∀ s b, search = some s → buf = some b → x.PRIVKEY_WIF_LENGTH_MIN ≤ size →
      s.found = true →
      vanity_get_wif x search buf size
        = ((privkey_to_wif x b s.found_privkey).1,
            some (privkey_to_wif x b s.found_privkey).2)) ∧
    ((¬ ∃ s b, search = some s ∧ buf = some b ∧ x.PRIVKEY_WIF_LENGTH_MIN ≤ size ∧
        s.found = true) →
      vanity_get_wif x search buf size = (-1, buf)) := by
  cases search with
  | none => simp [vanity_get_address, vanity_get_wif]
  | some s =>
    cases buf with
    | none => simp [vanity_get_address, vanity_get_wif]
    | some b =>
      by_cases hf : s.found = true
      · by_cases h35 : size < 35 <;> by_cases hmin : size < x.PRIVKEY_WIF_LENGTH_MIN <;>
          simp [vanity_get_address, vanity_get_wif, hf, h35, hmin, Nat.not_lt.mp,
            Nat.not_le.mpr]
      · simp [vanity_get_address, vanity_get_wif, hf]

/-- C11 fails on the code: with `-p suffix XYZ` the front compiles a Suffix
pattern, but the search it starts holds the Prefix pattern that
`vanity_init` compiles from the same text.  The address
`1XYZhfEG3mZjvVUshSuJ2UcT1wDej3Kbgq` does not end with `XYZ` and is rejected
by the Suffix pattern, yet a worker records it as found; the address
`1Kbgqhf3EG3mZjvVUshSuJ2UcT1wDej3XYZ` ends with `XYZ`, is accepted by the
Suffix pattern, and is not recorded. -/
theorem front_search_ignores_pattern_type :
    gd_handle_vanity_options 4 [.p (cstr "suffix")]
        = .ok ⟨true, false, 4, .PATTERN_TYPE_SUFFIX, .PATTERN_COMBINE_AND⟩ ∧
      gd_handle_vanity_compile (fun _ _ => none)
          ⟨true, false, 4, .PATTERN_TYPE_SUFFIX, .PATTERN_COMBINE_AND⟩ [cstr "XYZ"]
        = .ok (.SUFFIX true (cstr "XYZ") 3) ∧
      pattern_match (.SUFFIX true (cstr "XYZ") 3)
          ((cstr "1XYZhfEG3mZjvVUshSuJ2UcT1wDej3Kbgq").drop 1) = some false ∧
      pattern_match (.SUFFIX true (cstr "XYZ") 3)
          ((cstr "1Kbgqhf3EG3mZjvVUshSuJ2UcT1wDej3XYZ").drop 1) = some true ∧
      ∃ ctx,
        gd_handle_vanity_search (fun _ _ => none)
            ⟨4, false, 0, true, some ⟨List.replicate 32 0, 1⟩, true, fun _ => true,
              ⟨5, 0⟩, ⟨9, 0⟩, []⟩
            ⟨true, false, 4, .PATTERN_TYPE_SUFFIX, .PATTERN_COMBINE_AND⟩ [cstr "XYZ"]
          = some ctx ∧
        ctx.pattern = .PREFIX true (cstr "XYZ") 3 ∧
        (worker_match_site sample_extern ctx
          ⟨⟨List.replicate 32 7, 1⟩, ⟨[2, 3]⟩,
            cstr "1XYZhfEG3mZjvVUshSuJ2UcT1wDej3Kbgq"⟩).found = true ∧
        (worker_match_site sample_extern ctx
          ⟨⟨List.replicate 32 7, 1⟩, ⟨[2, 3]⟩,
            cstr "1Kbgqhf3EG3mZjvVUshSuJ2UcT1wDej3XYZ"⟩).found = false := by
  refine ⟨rfl, rfl, by decide, by decide, _, rfl, rfl, by decide, by decide⟩

theorem privkey_to_wif_ne_zero (x : Extern) (str : CStr) (key : PrivKey) :
    (privkey_to_wif x str key).1 ≠ 0 := by
  unfold privkey_to_wif
  simp only
  split <;> simp

/-- C12 fails on the code: `vanity_get_wif` never returns 0.  When `found`
is set, the handle and buffer are present, the buffer is large enough and
the encoder succeeds, it returns the 1 of `privkey_to_wif`; the front then
takes the non-zero value for a failure and returns -1 without printing the
key. -/
theorem get_wif_never_returns_zero (x : Extern) (search : Option VanitySearch)
    (wif : Option CStr) (wif_size : Nat) :
    (vanity_get_wif x search wif wif_size).1 ≠ 0 ∧
    (∀ s buf, search = some s → wif = some buf → x.PRIVKEY_WIF_LENGTH_MIN ≤ wif_size →
      s.found = true → (privkey_to_wif x buf s.found_privkey).1 = 1 →
      (vanity_get_wif x search wif wif_size).1 = 1) ∧
    (∀ s : VanitySearch, s.found = true → gd_handle_vanity_results x s = (-1, none)) := by
  have hne : ∀ (se : Option VanitySearch) (w : Option CStr) (n : Nat),
      (vanity_get_wif x se w n).1 ≠ 0 := by
    intro se w n
    unfold vanity_get_wif
    split
    · split
      · simp
      · exact privkey_to_wif_ne_zero x _ _
    · simp
  refine ⟨hne _ _ _, ?_, ?_⟩
  · intro s buf hs hb hsize hf hw
    subst hs hb
    have hlt : ¬ wif_size < x.PRIVKEY_WIF_LENGTH_MIN := by omega
    simp [vanity_get_wif, hlt, hf, hw]
  · intro s hf
    simp [gd_handle_vanity_results, vanity_found, hf, hne]

/-- C12 at concrete inputs: the sample search after it recorded a winner,
with an encoder that succeeds and the 100-byte buffer of the front. -/
theorem get_wif_returns_one_sample :
    (vanity_get_wif sample_encoder
        (some (worker_match_site sample_encoder sample_search sample_candidate))
        (some []) 100).1 = 1 ∧
      gd_handle_vanity_results sample_encoder
        (worker_match_site sample_encoder sample_search sample_candidate) = (-1, none) :=
  ⟨(get_wif_never_returns_zero sample_encoder
      (some (worker_match_site sample_encoder sample_search sample_candidate))
      (some []) 100).2.1 _ [] rfl rfl (by decide) (by decide) (by decide),
    (get_wif_never_returns_zero sample_encoder none none 0).2.2 _ (by decide)⟩

/-! ## Scenarios of the specification -/

/-- C13 fails on the code: for `1*COOL*Z` the first pass of
`compile_wildcard` allocates 3 segments and the second pass writes 5, so the
call leaves the array and yields no defined pattern.  On the five segments
the second pass means to write, `match_wildcard` would answer as the claim
says. -/
theorem wildcard_scenario_overflows :
    wildcard_count (cstr "1*COOL*Z") = 3 ∧
      (wildcard_parse [] (cstr "1*COOL*Z")).length = 5 ∧
      pattern_compile (fun _ _ => none) (some (cstr "1*COOL*Z")) .PATTERN_TYPE_WILDCARD true
        = .error .undefined ∧
      match_wildcard (wildcard_parse [] (cstr "1*COOL*Z")) (cstr "1xCOOLyZ") = some true ∧
      match_wildcard (wildcard_parse [] (cstr "1*COOL*Z")) (cstr "1COOLZ") = some true ∧
      match_wildcard (wildcard_parse [] (cstr "1*COOL*Z")) (cstr "1COOxZ") = some false := by
  refine ⟨by decide, by decide, rfl, by decide, by decide, by decide⟩

/-- C14 fails as stated: `1[AB][12]` compiles to the two classes `AB` and
`12`, the `1` before the first bracket producing no class, and the pattern
rejects the candidate `1A1`. -/
theorem alternation_scenario_rejects_1A1 :
    pattern_compile_alternation (some (cstr "1[AB][12]")) true
        = .ok (.ALTERNATION true [⟨cstr "AB", 2⟩, ⟨cstr "12", 2⟩]) ∧
      pattern_match (.ALTERNATION true [⟨cstr "AB", 2⟩, ⟨cstr "12", 2⟩]) (cstr "1A1")
        = some false := by
  refine ⟨rfl, by decide⟩

/-- C14, amended: the Alternation pattern compiled (case-sensitive) from
`1[AB][12]` has the two classes `AB` and `12`; it matches the candidate `A1`
and does not match the candidates `1A1`, `1C1` and `1A1X`. -/
theorem alternation_scenario :
    pattern_compile (fun _ _ => none) (some (cstr "1[AB][12]")) .PATTERN_TYPE_ALTERNATION true
        = .ok (.ALTERNATION true [⟨cstr "AB", 2⟩, ⟨cstr "12", 2⟩]) ∧
      pattern_match (.ALTERNATION true [⟨cstr "AB", 2⟩, ⟨cstr "12", 2⟩]) (cstr "A1")
        = some true ∧
      pattern_match (.ALTERNATION true [⟨cstr "AB", 2⟩, ⟨cstr "12", 2⟩]) (cstr "1A1")
        = some false ∧
      pattern_match (.ALTERNATION true [⟨cstr "AB", 2⟩, ⟨cstr "12", 2⟩]) (cstr "1C1")
        = some false ∧
      pattern_match (.ALTERNATION true [⟨cstr "AB", 2⟩, ⟨cstr "12", 2⟩]) (cstr "1A1X")
        = some false := by
  refine ⟨rfl, by decide, by decide, by decide, by decide⟩

/-- C15 fails on the code: `pattern_compile_multi` compiles `ABC` and `XYZ`
as Exact patterns, so the case-insensitive AND pattern rejects `abcXYZq`,
which contains both texts; it rejects `abcq` as well. -/
theorem multi_scenario_rejects :
    pattern_compile_multi (fun _ _ => none) (some [some (cstr "ABC"), some (cstr "XYZ")])
        .PATTERN_COMBINE_AND false
        = .ok (.MULTI false [.EXACT false (cstr "ABC") 3, .EXACT false (cstr "XYZ") 3]
            .PATTERN_COMBINE_AND) ∧
      pattern_match (.MULTI false [.EXACT false (cstr "ABC") 3, .EXACT false (cstr "XYZ") 3]
          .PATTERN_COMBINE_AND) (cstr "abcXYZq") = some false ∧
      pattern_match (.MULTI false [.EXACT false (cstr "ABC") 3, .EXACT false (cstr "XYZ") 3]
          .PATTERN_COMBINE_AND) (cstr "abcq") = some false ∧
      pattern_match (.CONTAINS false (cstr "ABC") 3) (cstr "abcXYZq") = some true ∧
      pattern_match (.CONTAINS false (cstr "XYZ") 3) (cstr "abcXYZq") = some true := by
  refine ⟨rfl, by decide, by decide, by decide, by decide⟩

/-! ## Acceptance by the compilers -/

/-- C16 fails as stated: `pattern_compile` returns a Prefix pattern for the
empty text. -/
theorem compile_accepts_empty_text :
    pattern_compile (fun _ _ => none) (some []) .PATTERN_TYPE_PREFIX true
      = .ok (.PREFIX true [] 0) := rfl

/-- C16, amended: for the empty text `pattern_compile` returns NULL when the
type is Alternation or Multi, and for Regex when `regcomp` rejects the empty
expression; for Prefix, Suffix, Contains and Exact it returns a pattern with
the empty text and length 0, for Wildcard a pattern with no segment, and for
Regex the compiled engine when `regcomp` accepts. -/
theorem compile_empty_text (regcomp : CStr → Bool → Option regex_t) (cs : Bool) :
    pattern_compile regcomp (some []) .PATTERN_TYPE_ALTERNATION cs = .error .null ∧
    pattern_compile regcomp (some []) .PATTERN_TYPE_MULTI cs = .error .null ∧
    (regcomp [] (!cs) = none →
      pattern_compile regcomp (some []) .PATTERN_TYPE_REGEX cs = .error .null) ∧
    (∀ re, regcomp [] (!cs) = some re →
      pattern_compile regcomp (some []) .PATTERN_TYPE_REGEX cs = .ok (.REGEX cs true re)) ∧
    pattern_compile regcomp (some []) .PATTERN_TYPE_PREFIX cs = .ok (.PREFIX cs [] 0) ∧
    pattern_compile regcomp (some []) .PATTERN_TYPE_SUFFIX cs = .ok (.SUFFIX cs [] 0) ∧
    pattern_compile regcomp (some []) .PATTERN_TYPE_CONTAINS cs = .ok (.CONTAINS cs [] 0) ∧
    pattern_compile regcomp (some []) .PATTERN_TYPE_EXACT cs = .ok (.EXACT cs [] 0) ∧
    pattern_compile regcomp (some []) .PATTERN_TYPE_WILDCARD cs = .ok (.WILDCARD cs []) := by
  refine ⟨rfl, rfl, ?_, ?_, rfl, rfl, rfl, rfl, rfl⟩
  · intro h
    simp [pattern_compile, strlen, PATTERN_MAX_LENGTH, h]
  · intro re h
    simp [pattern_compile, strlen, PATTERN_MAX_LENGTH, h]

/-- C17: `pattern_compile` returns NULL for every text longer than 64
characters, whatever the type; for a text of 1 to 64 characters and the type
Prefix, Suffix, Contains or Exact it returns the pattern of that type that
stores the text and its length, with the case flag requested. -/
theorem compile_length_limit (regcomp : CStr → Bool → Option regex_t) (text : CStr)
    (type : pattern_type_t) (cs : Bool) :
    (64 < text.length → pattern_compile regcomp (some text) type cs = .error .null) ∧
    (1 ≤ text.length ∧ text.length ≤ 64 →
      pattern_compile regcomp (some text) .PATTERN_TYPE_PREFIX cs
        = .ok (.PREFIX cs text text.length) ∧
      pattern_compile regcomp (some text) .PATTERN_TYPE_SUFFIX cs
        = .ok (.SUFFIX cs text text.length) ∧
      pattern_compile regcomp (some text) .PATTERN_TYPE_CONTAINS cs
        = .ok (.CONTAINS cs text text.length) ∧
      pattern_compile regcomp (some text) .PATTERN_TYPE_EXACT cs
        = .ok (.EXACT cs text text.length)) := by
  refine ⟨?_, ?_⟩
  · intro h
    simp [pattern_compile, strlen, PATTERN_MAX_LENGTH, h]
  · rintro ⟨_, h⟩
    have h' : ¬ 64 < text.length := by omega
    simp [pattern_compile, strlen, PATTERN_MAX_LENGTH, h']

theorem compile_exact_eq (regcomp : CStr → Bool → Option regex_t) (cs : Bool) (t : CStr) :
    pattern_compile regcomp (some t) .PATTERN_TYPE_EXACT cs
      = if t.length ≤ 64 then .ok (.EXACT cs t t.length) else .error .null := by
  by_cases ht : t.length ≤ 64
  · have h' : ¬ t.length > PATTERN_MAX_LENGTH := by
      simp only [PATTERN_MAX_LENGTH]
      omega
    simp [pattern_compile, strlen, h', ht]
  · have h' : t.length > PATTERN_MAX_LENGTH := by
      simp only [PATTERN_MAX_LENGTH]
      omega
    simp [pattern_compile, strlen, h', ht]

theorem compile_multi_loop_all (regcomp : CStr → Bool → Option regex_t) (cs : Bool)
    (texts : List CStr) (h : ∀ t ∈ texts, t.length ≤ 64) :
    compile_multi_loop regcomp cs (texts.map some)
      = .ok (texts.map fun t => Pattern.EXACT cs t t.length) := by
  induction texts with
  | nil => rfl
  | cons t ts ih =>
    have ht : t.length ≤ 64 := h t (List.mem_cons_self _ _)
    have hts := ih (fun u hu => h u (List.mem_cons_of_mem _ hu))
    simp only [List.map_cons, compile_multi_loop, compile_exact_eq, if_pos ht, hts]

theorem compile_multi_loop_long (regcomp : CStr → Bool → Option regex_t) (cs : Bool)
    (texts : List CStr) (h : ¬ ∀ t ∈ texts, t.length ≤ 64) :
    compile_multi_loop regcomp cs (texts.map some) = .error .null := by
  induction texts with
  | nil => simp at h
  | cons t ts ih =>
    simp only [List.map_cons, compile_multi_loop, compile_exact_eq]
    by_cases ht : t.length ≤ 64
    · have hts : ¬ ∀ u ∈ ts, u.length ≤ 64 := by
        intro hall
        apply h
        intro u hu
        rcases List.mem_cons.mp hu with rfl | hu
        · exact ht
        · exact hall u hu
      simp only [if_pos ht, ih hts]
    · simp only [if_neg ht]

theorem compile_multi_eq (regcomp : CStr → Bool → Option regex_t) (texts : List CStr)
    (ct : pattern_combine_t) (cs : Bool) :
    pattern_compile_multi regcomp (some (texts.map some)) ct cs
      = if 1 ≤ texts.length ∧ texts.length ≤ 8 ∧ ∀ t ∈ texts, t.length ≤ 64 then
          .ok (.MULTI cs (texts.map fun t => Pattern.EXACT cs t t.length) ct)
        else .error .null := by
  simp only [pattern_compile_multi, List.length_map, PATTERN_MAX_MULTI]
  by_cases hlen : texts.length = 0 ∨ texts.length > 8
  · have hn : ¬ (1 ≤ texts.length ∧ texts.length ≤ 8 ∧ ∀ t ∈ texts, t.length ≤ 64) := by
      rintro ⟨h1, h8, _⟩
      omega
    rw [if_pos hlen, if_neg hn]
  · have h1 : 1 ≤ texts.length ∧ texts.length ≤ 8 := by omega
    rw [if_neg hlen]
    by_cases hts : ∀ t ∈ texts, t.length ≤ 64
    · rw [if_pos ⟨h1.1, h1.2, hts⟩, compile_multi_loop_all regcomp cs texts hts]
    · have hn : ¬ (1 ≤ texts.length ∧ texts.length ≤ 8 ∧ ∀ t ∈ texts, t.length ≤ 64) :=
        fun h => hts h.2.2
      rw [if_neg hn, compile_multi_loop_long regcomp cs texts hts]

/-- C18: on texts that are all present, `pattern_compile_multi` returns a
pattern exactly when there are 1 to 8 texts and each has at most 64
characters, and returns NULL otherwise; the pattern returned is the Multi
pattern with the case flag and combinator requested whose sub-patterns are,
in order, the Exact patterns of the texts (none of them a Multi), as many as
there are texts. -/
theorem compile_multi_contract (regcomp : CStr → Bool → Option regex_t) (texts : List CStr)
    (ct : pattern_combine_t) (cs : Bool) :
    ((∃ p, pattern_compile_multi regcomp (some (texts.map some)) ct cs = .ok p) ↔
      1 ≤ texts.length ∧ texts.length ≤ 8 ∧ ∀ t ∈ texts, t.length ≤ 64) ∧
    (∀ p, pattern_compile_multi regcomp (some (texts.map some)) ct cs = .ok p →
      p = .MULTI cs (texts.map fun t => Pattern.EXACT cs t t.length) ct ∧
      (texts.map fun t => Pattern.EXACT cs t t.length).length = texts.length) ∧
    ((¬ ∃ p, pattern_compile_multi regcomp (some (texts.map some)) ct cs = .ok p) →
      pattern_compile_multi regcomp (some (texts.map some)) ct cs = .error .null) := by
  rw [compile_multi_eq]
  by_cases h : 1 ≤ texts.length ∧ texts.length ≤ 8 ∧ ∀ t ∈ texts, t.length ≤ 64
  · rw [if_pos h]
    refine ⟨⟨fun _ => h, fun _ => ⟨_, rfl⟩⟩, ?_, ?_⟩
    · intro p hp
      injection hp with hp
      exact ⟨hp.symm, by simp⟩
    · intro hn
      exact absurd ⟨_, rfl⟩ hn
  · rw [if_neg h]
    refine ⟨⟨?_, fun h' => absurd h' h⟩, ?_, fun _ => rfl⟩
    · rintro ⟨p, hp⟩
      cases hp
    · intro p hp
      cases hp

/-! ## Segments written by `compile_wildcard` -/

theorem wildcard_parse_star_count (t : CStr) :
    ∀ run, ((wildcard_parse run t).filter (·.is_wildcard)).length = t.count STAR := by
  induction t with
  | nil =>
    intro run
    by_cases hr : run = [] <;> simp [wildcard_parse, hr, literal_segment]
  | cons c t ih =>
    intro run
    by_cases hc : c = STAR
    · subst hc
      by_cases hr : run = [] <;>
        simp [wildcard_parse, hr, literal_segment, star_segment, ih []]
    · have hc' : ¬ STAR = c := fun h => hc h.symm
      simp [wildcard_parse, hc, ih (run ++ [c]), List.count_cons, hc']

theorem wildcard_parse_stars (k : Nat) (post : CStr) :
    wildcard_parse [] (List.replicate k STAR ++ post)
      = List.replicate k star_segment ++ wildcard_parse [] post := by
  induction k with
  | zero => simp
  | succ k ih => simp [List.replicate_succ, wildcard_parse, ih]

theorem wildcard_parse_cons_star (run t : CStr) :
    wildcard_parse run (STAR :: t)
      = (if run ≠ [] then [literal_segment run] else []) ++ star_segment :: wildcard_parse [] t := by
  simp [wildcard_parse]

theorem wildcard_parse_star_run (pre : CStr) (k : Nat) (post : CStr) :
    ∀ run, List.replicate k star_segment
      <:+: wildcard_parse run (pre ++ List.replicate k STAR ++ post) := by
  induction pre with
  | nil =>
    intro run
    cases k with
    | zero => simp
    | succ k =>
      have hparse : wildcard_parse run ([] ++ List.replicate (k + 1) STAR ++ post)
          = (if run ≠ [] then [literal_segment run] else [])
            ++ List.replicate (k + 1) star_segment ++ wildcard_parse [] post := by
        rw [List.nil_append, List.replicate_succ, List.cons_append, wildcard_parse_cons_star,
          wildcard_parse_stars, List.replicate_succ]
        simp
      rw [hparse]
      exact ⟨_, _, rfl⟩
  | cons c pre ih =>
    intro run
    by_cases hc : c = STAR
    · subst hc
      rw [List.cons_append, List.cons_append, wildcard_parse_cons_star]
      obtain ⟨a, b, hab⟩ := ih []
      refine ⟨(if run ≠ [] then [literal_segment run] else []) ++ star_segment :: a, b, ?_⟩
      rw [← hab]
      simp
    · have : wildcard_parse run (c :: pre ++ List.replicate k STAR ++ post)
          = wildcard_parse (run ++ [c]) (pre ++ List.replicate k STAR ++ post) := by
        simp [wildcard_parse, hc]
      rw [this]
      exact ih (run ++ [c])

theorem chain_cons_star (l : List pattern_segment_t)
    (h : List.Chain' (fun a b => a.is_wildcard = true ∨ b.is_wildcard = true) l) :
    List.Chain' (fun a b => a.is_wildcard = true ∨ b.is_wildcard = true)
      (star_segment :: l) := by
  cases l with
  | nil => simp
  | cons g l => exact List.Chain'.cons (Or.inl rfl) h

theorem wildcard_parse_chain (t : CStr) :
    ∀ run, List.Chain' (fun a b => a.is_wildcard = true ∨ b.is_wildcard = true)
      (wildcard_parse run t) := by
  induction t with
  | nil =>
    intro run
    by_cases hr : run = [] <;> simp [wildcard_parse, hr]
  | cons c t ih =>
    intro run
    by_cases hc : c = STAR
    · subst hc
      rw [wildcard_parse_cons_star]
      have hs := chain_cons_star _ (ih [])
      by_cases hr : run = []
      · simpa [hr] using hs
      · simp only [ne_eq, hr, not_false_eq_true, if_true, List.singleton_append]
        exact List.Chain'.cons (Or.inr rfl) hs
    · have : wildcard_parse run (c :: t) = wildcard_parse (run ++ [c]) t := by
        simp [wildcard_parse, hc]
      rw [this]
      exact ih _

/-- C20 fails as stated: the text `**` compiles to two consecutive wildcard
segments. -/
theorem wildcard_stars_not_collapsed :
    compile_wildcard (cstr "**") true = .ok (.WILDCARD true [star_segment, star_segment]) :=
  rfl

/-- C20, amended: in the segment list that `compile_wildcard` builds every
`*` of the text has a wildcard segment of its own, so a run of `k` adjacent
`*` produces `k` consecutive wildcard segments and the list has as many
wildcard segments as the text has `*`; what never occurs is two consecutive
literal segments. -/
theorem wildcard_segment_per_star (t : CStr) (cs : Bool) (p : Pattern)
    (h : compile_wildcard t cs = .ok p) :
    ∃ segs, p = .WILDCARD cs segs ∧
      (segs.filter (·.is_wildcard)).length = t.count STAR ∧
      (∀ pre k post, t = pre ++ List.replicate k STAR ++ post →
        List.replicate k star_segment <:+: segs) ∧
      List.Chain' (fun a b => a.is_wildcard = true ∨ b.is_wildcard = true) segs := by
  obtain ⟨hp, _⟩ := compile_wildcard_ok t cs p h
  refine ⟨_, hp, wildcard_parse_star_count t [], ?_, wildcard_parse_chain t []⟩
  intro pre k post ht
  rw [ht]
  exact wildcard_parse_star_run pre k post []

/-- C20 (amended) at a concrete input: the text `a**`. -/
theorem wildcard_segment_per_star_witness :
    ∃ segs, Pattern.WILDCARD true [literal_segment (cstr "a"), star_segment, star_segment]
        = .WILDCARD true segs ∧
      (segs.filter (·.is_wildcard)).length = (cstr "a**").count STAR ∧
      (∀ pre k post, cstr "a**" = pre ++ List.replicate k STAR ++ post →
        List.replicate k star_segment <:+: segs) ∧
      List.Chain' (fun a b => a.is_wildcard = true ∨ b.is_wildcard = true) segs :=
  wildcard_segment_per_star (cstr "a**") true _ rfl

/-! ## Classes read by `pattern_compile_alternation` -/

theorem split_rbracket_some (t g r : CStr) (h : split_rbracket t = some (g, r)) :
    t = g ++ RBRACKET :: r ∧ RBRACKET ∉ g := by
  induction t generalizing g with
  | nil => simp [split_rbracket] at h
  | cons c t ih =>
    simp only [split_rbracket] at h
    split at h
    · rename_i hc
      simp only [Option.some.injEq, Prod.mk.injEq] at h
      obtain ⟨rfl, rfl⟩ := h
      simp [hc]
    · rename_i hc
      cases hs : split_rbracket t with
      | none => simp [hs] at h
      | some gr =>
        simp only [hs, Option.map_some', Option.some.injEq, Prod.mk.injEq] at h
        obtain ⟨rfl, rfl⟩ := h
        obtain ⟨ht, hg⟩ := ih gr.1 (by rw [hs])
        refine ⟨by rw [List.cons_append, ← ht], ?_⟩
        simp only [List.mem_cons, not_or]
        exact ⟨fun h => hc h.symm, hg⟩

theorem split_rbracket_none (t : CStr) (h : split_rbracket t = none) : RBRACKET ∉ t := by
  induction t with
  | nil => simp
  | cons c t ih =>
    simp only [split_rbracket] at h
    split at h
    · cases h
    · rename_i hc
      cases hs : split_rbracket t with
      | none =>
        simp only [List.mem_cons, not_or]
        exact ⟨fun h => hc h.symm, ih hs⟩
      | some gr => simp [hs] at h

theorem bracket_scan_in_group (t : CStr) :
    ∀ g, bracket_scan (some g) t
      = match split_rbracket t with
        | none => none
        | some gr => (bracket_scan none gr.2).map ((g ++ gr.1) :: ·) := by
  induction t with
  | nil => intro g; simp [bracket_scan, split_rbracket]
  | cons c t ih =>
    intro g
    simp only [bracket_scan, split_rbracket]
    split
    · simp
    · rw [ih]
      cases hs : split_rbracket t with
      | none => simp
      | some gr => simp

theorem strchr_rbracket (t : CStr) :
    strchr t RBRACKET = (split_rbracket t).map fun gr => RBRACKET :: gr.2 := by
  induction t with
  | nil => simp [strchr, split_rbracket]
  | cons c t ih =>
    simp only [strchr, split_rbracket]
    split
    · rename_i hc
      simp [hc]
    · rw [ih]
      cases hs : split_rbracket t with
      | none => simp
      | some gr => simp

theorem read_class_of_split (room : Nat) :
    ∀ t g r, split_rbracket t = some (g, r) → g.length ≤ room →
      alternation_read_class room t = (g, RBRACKET :: r) := by
  induction room with
  | zero =>
    intro t g r h hlen
    have hg : g = [] := List.length_eq_zero.mp (Nat.le_zero.mp hlen)
    subst hg
    obtain ⟨ht, _⟩ := split_rbracket_some t [] r h
    subst ht
    simp [alternation_read_class]
  | succ room ih =>
    intro t g r h hlen
    cases t with
    | nil => simp [split_rbracket] at h
    | cons c t =>
      simp only [split_rbracket] at h
      simp only [alternation_read_class]
      split at h
      · rename_i hc
        simp only [Option.some.injEq, Prod.mk.injEq] at h
        obtain ⟨rfl, rfl⟩ := h
        simp [hc]
      · rename_i hc
        cases hs : split_rbracket t with
        | none => simp [hs] at h
        | some gr =>
          simp only [hs, Option.map_some', Option.some.injEq, Prod.mk.injEq] at h
          obtain ⟨rfl, rfl⟩ := h
          have := ih t gr.1 gr.2 (by rw [hs]) (by simpa using hlen)
          simp [hc, this]

theorem split_of_read_class (room : Nat) :
    ∀ t rest, (alternation_read_class room t).2 = RBRACKET :: rest →
      split_rbracket t = some ((alternation_read_class room t).1, rest) ∧
        (alternation_read_class room t).1.length ≤ room := by
  induction room with
  | zero =>
    intro t rest h
    simp only [alternation_read_class] at h ⊢
    subst h
    simp [split_rbracket]
  | succ room ih =>
    intro t rest h
    cases t with
    | nil => simp [alternation_read_class] at h
    | cons c t =>
      simp only [alternation_read_class] at h ⊢
      by_cases hc : c = RBRACKET
      · simp only [hc, if_true, List.cons.injEq, true_and] at h
        subst h
        simp [hc, split_rbracket]
      · simp only [hc, if_false] at h ⊢
        obtain ⟨hs, hl⟩ := ih t rest h
        simp [split_rbracket, hc, hs, hl]

theorem alternation_count_eq (fuel : Nat) :
    ∀ t : CStr, t.length < fuel →
      alternation_count fuel t = (bracket_scan none t).map List.length := by
  induction fuel with
  | zero => intro t h; omega
  | succ fuel ih =>
    intro t hlen
    cases t with
    | nil => simp [alternation_count, bracket_scan]
    | cons c t =>
      simp only [alternation_count, bracket_scan]
      by_cases hc : c = LBRACKET
      · have hne : ¬ c = RBRACKET := by
          rw [hc]
          decide
        simp only [hc, if_true, bracket_scan_in_group]
        have hstr : strchr (LBRACKET :: t) RBRACKET = strchr t RBRACKET := by
          simp [strchr, LBRACKET, RBRACKET]
        rw [hstr, strchr_rbracket]
        cases hs : split_rbracket t with
        | none => simp
        | some gr =>
          obtain ⟨ht, _⟩ := split_rbracket_some t gr.1 gr.2 (by rw [hs])
          have hr : gr.2.length < fuel := by
            have : t.length = gr.1.length + (gr.2.length + 1) := by
              rw [ht]
              simp
            simp only [List.length_cons] at hlen
            omega
          simp only [Option.map_some', List.drop_one, List.tail_cons, ih gr.2 hr,
            Option.map_map]
          cases bracket_scan none gr.2 <;> simp
      · simp only [hc, if_false]
        exact ih t (by simpa using hlen)

theorem alternation_parse_eq (fuel : Nat) :
    ∀ (t : CStr) (todo : Nat) (gs : List CStr), t.length < fuel →
      bracket_scan none t = some gs → gs.length ≤ todo →
      alternation_parse fuel t todo
        = if ∀ g ∈ gs, g.length ≤ 58 then
            some (gs.map fun g => (⟨g, g.length⟩ : pattern_charclass_t))
          else none := by
  induction fuel with
  | zero => intro t _ _ h; omega
  | succ fuel ih =>
    intro t todo gs hlen hscan htodo
    cases t with
    | nil =>
      simp only [bracket_scan, Option.some.injEq] at hscan
      subst hscan
      simp [alternation_parse]
    | cons c t =>
      cases todo with
      | zero =>
        have hgs : gs = [] := List.length_eq_zero.mp (Nat.le_zero.mp htodo)
        subst hgs
        simp [alternation_parse]
      | succ todo =>
        simp only [alternation_parse]
        simp only [bracket_scan] at hscan
        by_cases hc : c = LBRACKET
        · simp only [hc, if_true, bracket_scan_in_group] at hscan ⊢
          cases hs : split_rbracket t with
          | none => simp [hs] at hscan
          | some gr =>
            simp only [hs, List.nil_append] at hscan
            cases hrest : bracket_scan none gr.2 with
            | none => simp [hrest] at hscan
            | some gs' =>
              simp only [hrest, Option.map_some', Option.some.injEq] at hscan
              subst hscan
              obtain ⟨ht, _⟩ := split_rbracket_some t gr.1 gr.2 (by rw [hs])
              have hr : gr.2.length < fuel := by
                have : t.length = gr.1.length + (gr.2.length + 1) := by
                  rw [ht]
                  simp
                simp only [List.length_cons] at hlen
                omega
              have htodo' : gs'.length ≤ todo := by simpa using htodo
              by_cases hg : gr.1.length ≤ 58
              · have hread := read_class_of_split PATTERN_MAX_CHARCLASS t gr.1 gr.2
                  (by rw [hs]) hg
                rw [hread]
                simp only [if_true, ih gr.2 todo gs' hr hrest htodo', List.mem_cons,
                  forall_eq_or_imp, hg, true_and, List.map_cons]
                by_cases hall : ∀ g ∈ gs', g.length ≤ 58
                · simp [hall]
                · simp [hall]
              · have hnone : ¬ ∀ g ∈ gr.1 :: gs', g.length ≤ 58 :=
                  fun h => hg (h _ (List.mem_cons_self _ _))
                rw [if_neg hnone]
                cases hrd : alternation_read_class PATTERN_MAX_CHARCLASS t with
                | mk chars rest =>
                  cases rest with
                  | nil => rfl
                  | cons r rest =>
                    simp only
                    by_cases hrb : r = RBRACKET
                    · exfalso
                      have h2 : (alternation_read_class PATTERN_MAX_CHARCLASS t).2
                          = RBRACKET :: rest := by rw [hrd, hrb]
                      obtain ⟨hsp, hl⟩ := split_of_read_class PATTERN_MAX_CHARCLASS t rest h2
                      rw [hs] at hsp
                      simp only [Option.some.injEq] at hsp
                      apply hg
                      rw [hsp]
                      exact hl
                    · simp [hrb]
        · simp only [hc, if_false] at hscan ⊢
          exact ih t (todo + 1) gs (by simpa using hlen) hscan htodo

theorem compile_alternation_eq (t : CStr) (cs : Bool) :
    pattern_compile_alternation (some t) cs
      = match bracket_groups t with
        | none => .error .null
        | some gs =>
          if gs ≠ [] ∧ ∀ g ∈ gs, g.length ≤ 58 then
            .ok (.ALTERNATION cs (gs.map fun g => (⟨g, g.length⟩ : pattern_charclass_t)))
          else .error .null := by
  simp only [pattern_compile_alternation, bracket_groups,
    alternation_count_eq (t.length + 1) t (Nat.lt_succ_self _)]
  cases hs : bracket_scan none t with
  | none => rfl
  | some gs =>
    simp only [Option.map_some']
    by_cases hnil : gs = []
    · subst hnil
      simp
    · have hlen : ¬ gs.length = 0 := fun h => hnil (List.length_eq_zero.mp h)
      rw [if_neg hlen, alternation_parse_eq (t.length + 1) t gs.length gs
        (Nat.lt_succ_self _) hs (Nat.le_refl _)]
      by_cases hall : ∀ g ∈ gs, g.length ≤ 58
      · rw [if_pos hall, if_pos ⟨hnil, hall⟩]
        simp
      · have hn : ¬ (gs ≠ [] ∧ ∀ g ∈ gs, g.length ≤ 58) := fun h => hall h.2
        rw [if_neg hall, if_neg hn]

/-- C19: `pattern_compile_alternation` returns a pattern exactly when the
text has its bracket groups well formed (every `[` met outside a group has a
`]` after it), has at least one group, and no group holds more than 58
characters; otherwise it returns NULL.  The classes of the pattern returned
are the contents of the groups in text order, each with `count` equal to its
number of characters (at most 58), the class count is the number of groups,
and characters outside the groups produce no class. -/
theorem compile_alternation_contract (t : CStr) (cs : Bool) :
    ((∃ p, pattern_compile_alternation (some t) cs = .ok p) ↔
      ∃ gs, bracket_groups t = some gs ∧ gs ≠ [] ∧ ∀ g ∈ gs, g.length ≤ 58) ∧
    (∀ p, pattern_compile_alternation (some t) cs = .ok p →
      ∃ gs, bracket_groups t = some gs ∧
        p = .ALTERNATION cs (gs.map fun g => (⟨g, g.length⟩ : pattern_charclass_t)) ∧
        (gs.map fun g => (⟨g, g.length⟩ : pattern_charclass_t)).length = gs.length ∧
        ∀ g ∈ gs, g.length ≤ 58) ∧
    ((¬ ∃ p, pattern_compile_alternation (some t) cs = .ok p) →
      pattern_compile_alternation (some t) cs = .error .null) := by
  rw [compile_alternation_eq]
  cases hs : bracket_groups t with
  | none =>
    refine ⟨⟨?_, ?_⟩, ?_, fun _ => rfl⟩
    · rintro ⟨p, hp⟩
      cases hp
    · rintro ⟨gs, hgs, _⟩
      cases hgs
    · intro p hp
      cases hp
  | some gs =>
    simp only
    by_cases h : gs ≠ [] ∧ ∀ g ∈ gs, g.length ≤ 58
    · rw [if_pos h]
      refine ⟨⟨fun _ => ⟨gs, rfl, h.1, h.2⟩, fun _ => ⟨_, rfl⟩⟩, ?_, ?_⟩
      · intro p hp
        injection hp with hp
        exact ⟨gs, rfl, hp.symm, by simp, h.2⟩
      · intro hn
        exact absurd ⟨_, rfl⟩ hn
    · rw [if_neg h]
      refine ⟨⟨?_, ?_⟩, ?_, fun _ => rfl⟩
      · rintro ⟨p, hp⟩
        cases hp
      · rintro ⟨gs', hgs', h1, h2⟩
        injection hgs' with hgs'
        subst hgs'
        exact absurd ⟨h1, h2⟩ h
      · intro p hp
        cases hp

/-! ## Size of the segment array -/

/-- C21 fails on the code: for the text `a*b` the first pass of
`compile_wildcard` computes 2 segments and the second pass writes 3 (`a`,
`*`, `b`), the last at index 2 of a 2-entry array; the same happens for the
text `1*ABC*Z` of the header (3 allocated, 5 written). -/
theorem wildcard_count_too_small :
    wildcard_count (cstr "a*b") = 2 ∧
      wildcard_parse [] (cstr "a*b")
        = [literal_segment (cstr "a"), star_segment, literal_segment (cstr "b")] ∧
      ¬ (wildcard_parse [] (cstr "a*b")).length ≤ wildcard_count (cstr "a*b") ∧
      compile_wildcard (cstr "a*b") true = .error .undefined ∧
      wildcard_count (cstr "1*ABC*Z") = 3 ∧
      (wildcard_parse [] (cstr "1*ABC*Z")).length = 5 := by
  refine ⟨by decide, by decide, by decide, rfl, by decide, by decide⟩

/-! ## Probability of wildcard patterns -/

theorem fixed_chars_fold (segs : List pattern_segment_t) :
    ∀ n : Nat, segs.foldl (fun n g => if g.is_wildcard then n else n + g.len) n
      = n + ((segs.filter fun g => !g.is_wildcard).map (·.len)).sum := by
  induction segs with
  | nil => intro n; simp
  | cons g segs ih =>
    intro n
    simp only [List.foldl_cons, ih]
    by_cases hg : g.is_wildcard = true
    · simp [hg]
    · simp [hg, Nat.add_assoc]

theorem halving_fold (segs : List pattern_segment_t) :
    ∀ prob : ℚ, segs.foldl (fun prob g => if g.is_wildcard then prob * (1 / 2) else prob) prob
      = prob * (1 / 2) ^ (segs.filter (·.is_wildcard)).length := by
  induction segs with
  | nil => intro prob; simp
  | cons g segs ih =>
    intro prob
    simp only [List.foldl_cons, ih]
    by_cases hg : g.is_wildcard = true
    · simp only [hg, if_true, List.filter_cons_of_pos, List.length_cons, pow_succ]
      ring
    · simp [hg]

theorem calc_wildcard_probability_eq (segs : List pattern_segment_t) :
    calc_wildcard_probability segs
      = (1 / 58) ^ ((segs.filter fun g => !g.is_wildcard).map (·.len)).sum
        * (1 / 2) ^ (segs.filter (·.is_wildcard)).length := by
  simp only [calc_wildcard_probability, fixed_chars_fold, halving_fold, base58_len,
    Nat.zero_add]
  norm_num

theorem wildcard_parse_literal_sum (t : CStr) :
    ∀ run, (((wildcard_parse run t).filter fun g => !g.is_wildcard).map (·.len)).sum
      = run.length + (t.filter fun c => c ≠ STAR).length := by
  induction t with
  | nil =>
    intro run
    by_cases hr : run = [] <;> simp [wildcard_parse, hr, literal_segment]
  | cons c t ih =>
    intro run
    by_cases hc : c = STAR
    · subst hc
      by_cases hr : run = [] <;>
        simp [wildcard_parse, hr, literal_segment, star_segment, ih []]
    · simp [wildcard_parse, hc, ih (run ++ [c])]
      omega

theorem filter_ne_star_length (t : CStr) :
    (t.filter fun c => c ≠ STAR).length + t.count STAR = t.length := by
  induction t with
  | nil => simp
  | cons c t ih =>
    simp only [ne_eq, decide_not] at ih ⊢
    by_cases hc : c = STAR
    · subst hc
      simp
      omega
    · have hc' : ¬ STAR = c := fun h => hc h.symm
      simp [hc, List.count_cons, hc']
      omega

/-- C28: for every wildcard text `t` with `a` characters other than `*` and
`k` characters `*`, the segments the second pass of `compile_wildcard`
writes have literal lengths that sum to `a` and exactly `k` wildcard
segments, their probability is `58^(-a) × 0.5^k`, and this is the
probability of the pattern whenever `pattern_compile` returns one. -/
theorem wildcard_probability_formula (regcomp : CStr → Bool → Option regex_t)
    (t : CStr) (cs : Bool) :
    (((wildcard_parse [] t).filter fun g => !g.is_wildcard).map (·.len)).sum
        = (t.filter fun c => c ≠ STAR).length ∧
    ((wildcard_parse [] t).filter (·.is_wildcard)).length = t.count STAR ∧
    (t.filter fun c => c ≠ STAR).length + t.count STAR = t.length ∧
    calc_wildcard_probability (wildcard_parse [] t)
        = (1 / 58) ^ (t.filter fun c => c ≠ STAR).length * (1 / 2) ^ t.count STAR ∧
    (∀ p, pattern_compile regcomp (some t) .PATTERN_TYPE_WILDCARD cs = .ok p →
      pattern_probability p
        = (1 / 58) ^ (t.filter fun c => c ≠ STAR).length * (1 / 2) ^ t.count STAR) := by
  have hsum := wildcard_parse_literal_sum t []
  have hcount := wildcard_parse_star_count t []
  have hprob : calc_wildcard_probability (wildcard_parse [] t)
      = (1 / 58) ^ (t.filter fun c => c ≠ STAR).length * (1 / 2) ^ t.count STAR := by
    rw [calc_wildcard_probability_eq, hsum, hcount]
    simp
  refine ⟨by simpa using hsum, hcount, filter_ne_star_length t, hprob, ?_⟩
  intro p hp
  unfold pattern_compile at hp
  simp only at hp
  split at hp
  · cases hp
  · obtain ⟨hpe, _⟩ := compile_wildcard_ok t cs p hp
    subst hpe
    simpa [pattern_probability] using hprob

/-! ## Texts made of `*` only -/

theorem wildcard_parse_all_stars (k : Nat) :
    wildcard_parse [] (List.replicate k STAR) = List.replicate k star_segment := by
  have := wildcard_parse_stars k []
  simpa [wildcard_parse] using this

theorem wildcard_scan_star (s : CStr) (hs : s ≠ []) : wildcard_scan star_segment s = some s := by
  cases s with
  | nil => exact absurd rfl hs
  | cons c cs => simp [wildcard_scan, star_segment, strncmp]

theorem wildcard_walk_all_stars (s : CStr) (hs : s ≠ []) :
    ∀ k, wildcard_walk (some true) (List.replicate k star_segment) s = some true ∧
      wildcard_walk (some true) (List.replicate (k + 1) star_segment) s = some true := by
  intro k
  induction k with
  | zero =>
    refine ⟨by simp [wildcard_walk, hs], ?_⟩
    simp [List.replicate, wildcard_walk, star_segment]
  | succ k ih =>
    refine ⟨ih.2, ?_⟩
    have h2 : List.replicate (k + 1 + 1) star_segment
        = star_segment :: star_segment :: List.replicate k star_segment := by
      simp [List.replicate_succ]
    rw [h2]
    simp only [wildcard_walk, wildcard_scan_star s hs]
    simpa [star_segment] using ih.1

/-- C22: the text of `k` characters `*` compiles to `k` wildcard segments
(through `pattern_compile` when `k ≤ 64`); for `k ≥ 1` the pattern matches
every non-empty candidate, and its probability is `0.5^k`. -/
theorem all_stars_pattern (regcomp : CStr → Bool → Option regex_t) (k : Nat) (cs : Bool) :
    compile_wildcard (List.replicate k STAR) cs
        = .ok (.WILDCARD cs (List.replicate k star_segment)) ∧
    (k ≤ 64 → pattern_compile regcomp (some (List.replicate k STAR)) .PATTERN_TYPE_WILDCARD cs
        = .ok (.WILDCARD cs (List.replicate k star_segment))) ∧
    (1 ≤ k → ∀ s : CStr, s ≠ [] →
      pattern_match (.WILDCARD cs (List.replicate k star_segment)) s = some true) ∧
    pattern_probability (.WILDCARD cs (List.replicate k star_segment)) = (1 / 2) ^ k := by
  have hc : compile_wildcard (List.replicate k STAR) cs
      = .ok (.WILDCARD cs (List.replicate k star_segment)) := by
    simp [compile_wildcard, wildcard_parse_all_stars, wildcard_count]
  refine ⟨hc, ?_, ?_, ?_⟩
  · intro hk
    have hlen : ¬ k > PATTERN_MAX_LENGTH := by
      simp only [PATTERN_MAX_LENGTH]
      omega
    simp [pattern_compile, strlen, hlen, hc]
  · intro hk s hs
    obtain ⟨j, rfl⟩ : ∃ j, k = j + 1 := ⟨k - 1, by omega⟩
    have hlast : ((List.replicate (j + 1) star_segment).getLast?).map (·.is_wildcard)
        = some true := by
      rw [List.getLast?_eq_getLast _ (by simp), List.getLast_replicate]
      rfl
    simp only [pattern_match, match_wildcard, hlast]
    exact (wildcard_walk_all_stars s hs j).2
  · simp only [pattern_probability, calc_wildcard_probability_eq]
    simp [star_segment]

/-! ## `vanity_stop` -/

/-- C23: `vanity_stop` sets `stopped` and leaves every other field of the
search state as it was, among them `found`, `attempts` and the recorded
secret, compressed flag and address; `vanity_get_address` gives the same
answer after the stop as before, namely the recorded address when `found` is
set and the buffer has 35 bytes; and a second `vanity_stop` changes
nothing. -/
theorem vanity_stop_frame (s : VanitySearch) (buf : Option CStr) (size : Nat) :
    (vanity_stop s).stopped = true ∧
    vanity_stop s = { s with stopped := true } ∧
    (vanity_stop s).found = s.found ∧
    (vanity_stop s).attempts = s.attempts ∧
    result_slot (vanity_stop s) = result_slot s ∧
    (vanity_stop s).pattern = s.pattern ∧
    vanity_get_address (some (vanity_stop s)) buf size = vanity_get_address (some s) buf size ∧
    (∀ b, buf = some b → s.found = true → 35 ≤ size →
      vanity_get_address (some (vanity_stop s)) buf size = (0, some s.found_address)) ∧
    vanity_stop (vanity_stop s) = vanity_stop s := by
  refine ⟨rfl, rfl, rfl, rfl, rfl, rfl, ?_, ?_, rfl⟩
  · cases buf <;> rfl
  · intro b hb hf hsize
    subst hb
    have h35 : ¬ size < 35 := by omega
    simp [vanity_get_address, vanity_stop, hf, h35]

/-! ## The probability model -/

theorem probability_product_eq (ps : List Pattern) :
    ∀ prob : ℚ, probability_product prob ps = prob * (ps.map pattern_probability).prod := by
  induction ps with
  | nil => intro prob; simp [probability_product]
  | cons p ps ih =>
    intro prob
    simp only [probability_product, ih, List.map_cons, List.prod_cons]
    ring

theorem probability_sum_eq (ps : List Pattern) :
    ∀ prob : ℚ, probability_sum prob ps = prob + (ps.map pattern_probability).sum := by
  induction ps with
  | nil => intro prob; simp [probability_sum]
  | cons p ps ih =>
    intro prob
    simp only [probability_sum, ih, List.map_cons, List.sum_cons]
    ring

theorem alternation_fold (classes : List pattern_charclass_t) :
    ∀ prob : ℚ,
      classes.foldl (fun prob cl => prob * ((cl.count : ℚ) / (base58_len : ℚ))) prob
        = prob * (classes.map fun cl => (cl.count : ℚ) / 58).prod := by
  induction classes with
  | nil => intro prob; simp
  | cons cl classes ih =>
    intro prob
    rw [List.foldl_cons, ih, List.map_cons, List.prod_cons]
    simp only [base58_len]
    push_cast
    ring

/-- C27: `pattern_probability`, read over the rationals, is `58^(-len)` for
a Prefix, Suffix or Exact pattern with stored length `len`, a tenth of that
for Contains, 0 for Regex, the product of `count / 58` over the classes for
Alternation (a class with 58 characters contributing the factor 1), the
product of the sub-pattern probabilities for Multi-AND and their sum for
Multi-OR. -/
theorem probability_model (cs : Bool) (t : CStr) (len : Nat) (has_regex : Bool)
    (regex : regex_t) (classes : List pattern_charclass_t) (ps : List Pattern) :
    pattern_probability (.PREFIX cs t len) = 1 / 58 ^ len ∧
    pattern_probability (.SUFFIX cs t len) = 1 / 58 ^ len ∧
    pattern_probability (.EXACT cs t len) = 1 / 58 ^ len ∧
    pattern_probability (.CONTAINS cs t len) = 1 / 58 ^ len * (1 / 10) ∧
    pattern_probability (.REGEX cs has_regex regex) = 0 ∧
    pattern_probability (.ALTERNATION cs classes)
      = (classes.map fun cl => (cl.count : ℚ) / 58).prod ∧
    (∀ cl : pattern_charclass_t, cl.count = 58 → (cl.count : ℚ) / 58 = 1) ∧
    pattern_probability (.MULTI cs ps .PATTERN_COMBINE_AND)
      = (ps.map pattern_probability).prod ∧
    pattern_probability (.MULTI cs ps .PATTERN_COMBINE_OR)
      = (ps.map pattern_probability).sum := by
  refine ⟨?_, ?_, ?_, ?_, ?_, ?_, ?_, ?_, ?_⟩
  · simp [pattern_probability, base58_len]
  · simp [pattern_probability, base58_len]
  · simp [pattern_probability, base58_len]
  · simp [pattern_probability, base58_len]
  · simp [pattern_probability]
  · simp [pattern_probability, calc_alternation_probability, alternation_fold]
  · intro cl h
    rw [h]
    norm_num
  · simp [pattern_probability, probability_product_eq]
  · simp [pattern_probability, probability_sum_eq]

/-! ## Simple patterns, case-insensitive -/

theorem strcasestr_isSome (h t : CStr) :
    (strcasestr h t).isSome = (strstr (h.map tolower) (t.map tolower)).isSome := by
  induction h with
  | nil =>
    by_cases ht : t = [] <;> simp [strcasestr, strstr, ht]
  | cons c cs ih =>
    simp only [strcasestr, strstr, List.map_cons, strncasecmp, List.length_map]
    split
    · simp
    · exact ih

theorem match_insensitive_eq (t s : CStr) (len : Nat) :
    pattern_match (.PREFIX false t (strlen t)) s
        = pattern_match (.PREFIX true (t.map tolower) (strlen (t.map tolower)))
            (s.map tolower) ∧
    pattern_match (.SUFFIX false t (strlen t)) s
        = pattern_match (.SUFFIX true (t.map tolower) (strlen (t.map tolower)))
            (s.map tolower) ∧
    pattern_match (.CONTAINS false t len) s
        = pattern_match (.CONTAINS true (t.map tolower) len) (s.map tolower) ∧
    pattern_match (.EXACT false t len) s
        = pattern_match (.EXACT true (t.map tolower) len) (s.map tolower) := by
  refine ⟨?_, ?_, ?_, ?_⟩
  · simp [pattern_match, strlen, strncasecmp]
  · simp [pattern_match, strlen, strcasecmp, List.map_drop]
  · simp [pattern_match, strcasestr_isSome]
  · simp [pattern_match, strcasecmp]

/-- C29: a case-insensitive Prefix, Suffix, Contains or Exact pattern with
text `t` answers on a candidate `s` what the case-sensitive pattern with
text `lower(t)` answers on `lower(s)`: whether `lower(s)` starts with, ends
with, contains, or equals `lower(t)`, where `lower` maps `A`..`Z` to
`a`..`z` and leaves every other byte unchanged. -/
theorem pattern_match_simple_insensitive (t s : CStr) (len : Nat) :
    (pattern_match (.PREFIX false t (strlen t)) s
        = pattern_match (.PREFIX true (t.map tolower) (strlen (t.map tolower)))
            (s.map tolower) ∧
      pattern_match (.PREFIX false t (strlen t)) s
        = some (decide (t.map tolower <+: s.map tolower))) ∧
    (pattern_match (.SUFFIX false t (strlen t)) s
        = pattern_match (.SUFFIX true (t.map tolower) (strlen (t.map tolower)))
            (s.map tolower) ∧
      pattern_match (.SUFFIX false t (strlen t)) s
        = some (decide (t.map tolower <:+ s.map tolower))) ∧
    (pattern_match (.CONTAINS false t len) s
        = pattern_match (.CONTAINS true (t.map tolower) len) (s.map tolower) ∧
      pattern_match (.CONTAINS false t len) s
        = some (decide (t.map tolower <:+: s.map tolower))) ∧
    (pattern_match (.EXACT false t len) s
        = pattern_match (.EXACT true (t.map tolower) len) (s.map tolower) ∧
      pattern_match (.EXACT false t len) s
        = some (decide (s.map tolower = t.map tolower))) ∧
    (∀ c : Nat, tolower c = if 65 ≤ c ∧ c ≤ 90 then c + 32 else c) := by
  obtain ⟨h1, h2, h3, h4⟩ := match_insensitive_eq t s len
  refine ⟨⟨h1, ?_⟩, ⟨h2, ?_⟩, ⟨h3, ?_⟩, ⟨h4, ?_⟩, fun c => rfl⟩
  · rw [h1]
    exact match_prefix_sensitive _ _
  · rw [h2]
    exact match_suffix_sensitive _ _
  · rw [h3]
    exact match_contains_sensitive _ _ _
  · rw [h4]
    exact match_exact_sensitive _ _ _

/-! ## One batch of a worker -/

theorem chunk_matches_count_attempt (x : Extern) (d : Deriver) (s : VanitySearch)
    (ch : List Nat) :
    chunk_matches x d (worker_count_attempt s) ch = chunk_matches x d s ch := rfl

/-- C26 fails on the code: the product `keys_per_second * thread_count` is
formed in 64-bit unsigned arithmetic.  For the Prefix pattern `1`
(probability 1/58), 2 threads and `2^63 + 1` keys per second the product
wraps to 2 and the estimate is `58 / 2 = 29` seconds, not
`58 / (2^64 + 2)`.  When the product stays below `2^64` the function returns
what the claim says. -/
theorem estimate_time_product_wraps :
    benchmark_estimate_time (some (.PREFIX true (cstr "1") 1)) 2 (2 ^ 63 + 1) = 29 ∧
      (1 / pattern_probability (.PREFIX true (cstr "1") 1)) / (((2 ^ 63 + 1) * 2 : Nat) : ℚ)
        ≠ 29 ∧
      (∀ (p : Pattern) (thread_count keys_per_second : Nat),
        keys_per_second * thread_count < 2 ^ 64 →
        benchmark_estimate_time (some p) thread_count keys_per_second
          = if keys_per_second = 0 ∨ pattern_probability p ≤ 0 then 0
            else (1 / pattern_probability p)
              / (((keys_per_second * thread_count : Nat)) : ℚ)) := by
  refine ⟨?_, ?_, ?_⟩
  · simp only [benchmark_estimate_time, pattern_probability, base58_len]
    norm_num
  · simp only [pattern_probability, base58_len]
    norm_num
  · intro p tc kps hlt
    simp only [benchmark_estimate_time, Nat.mod_eq_of_lt hlt]
    by_cases hk : kps = 0
    · simp [hk]
    · by_cases hp : pattern_probability p ≤ 0
      · simp [hk, hp]
      · simp [hk, hp]

/-! ## WIF texts -/

theorem privkey_to_wif_eq (x : Extern) (str : CStr) (key : PrivKey) :
    privkey_to_wif x str key
      = match x.base58check_encode (wif_payload x key) with
        | none => (-1, str)
        | some base58check => (1, base58check) := rfl

/-- C30: `privkey_to_wif` hands the encoder the network prefix byte (0x80
on mainnet, 0xEF on testnet), the `PRIVKEY_LENGTH` secret bytes and, exactly
when the key is compressed, the byte `PRIVKEY_COMPRESSED_FLAG`, and returns
the encoder's text; if the decoder inverts the encoder, `privkey_from_wif` on
that text returns its success value 1, restores the same secret bytes and
the same compressed status, and selects the same network. -/
theorem wif_round_trip (x : Extern) (dx : ExternDecode) (key target : PrivKey)
    (buf w : CStr)
    (hnet : x.network_is_main = true ∨ x.network_is_test = true)
    (hlen : key.data.length = x.PRIVKEY_LENGTH)
    (htarget : target.data.length = x.PRIVKEY_LENGTH)
    (hflag : dx.PRIVKEY_UNCOMPRESSED_FLAG ≠ x.PRIVKEY_COMPRESSED_FLAG)
    (hinv : ∀ p t, x.base58check_encode p = some t → dx.base58check_decode t = some p)
    (henc : x.base58check_encode (wif_payload x key) = some w) :
    privkey_to_wif x buf key = (1, w) ∧
    wif_payload x key
      = (if x.network_is_main then 0x80 else 0xEF) :: key.data ++
        (if key.cflag = x.PRIVKEY_COMPRESSED_FLAG then [x.PRIVKEY_COMPRESSED_FLAG] else []) ∧
    (privkey_from_wif x dx target w).1 = 1 ∧
    (privkey_from_wif x dx target w).2.1.data = key.data ∧
    privkey_is_compressed x (privkey_from_wif x dx target w).2.1
      = privkey_is_compressed x key ∧
    (privkey_from_wif x dx target w).2.2 = some x.network_is_main := by
  have hpay : wif_payload x key
      = (if x.network_is_main then 0x80 else 0xEF) :: key.data ++
        (if key.cflag = x.PRIVKEY_COMPRESSED_FLAG then [x.PRIVKEY_COMPRESSED_FLAG] else []) := by
    simp only [wif_payload, privkey_is_compressed, ← hlen, List.take_length, MAINNET_PREFIX,
      TESTNET_PREFIX, beq_iff_eq]
    rcases hnet with h | h
    · simp [h]
    · by_cases hm : x.network_is_main = true <;> simp [hm, h]
  have hdec := hinv _ _ henc
  refine ⟨by rw [privkey_to_wif_eq, henc], hpay, ?_⟩
  have hdrop : target.data.drop x.PRIVKEY_LENGTH = [] := by
    rw [← htarget, List.drop_length]
  by_cases hc : key.cflag = x.PRIVKEY_COMPRESSED_FLAG
  · have hp : wif_payload x key
        = (if x.network_is_main = true then MAINNET_PREFIX else TESTNET_PREFIX)
          :: (key.data ++ [x.PRIVKEY_COMPRESSED_FLAG]) := by
      rw [hpay]
      simp [hc, MAINNET_PREFIX, TESTNET_PREFIX]
    rw [hp] at hdec
    have htake : (key.data ++ [x.PRIVKEY_COMPRESSED_FLAG]).take x.PRIVKEY_LENGTH = key.data := by
      rw [← hlen, List.take_left]
    have hlast : ∀ a : Nat, (a :: (key.data ++ [x.PRIVKEY_COMPRESSED_FLAG])).getLast?
        = some x.PRIVKEY_COMPRESSED_FLAG := by
      intro a
      rw [← List.cons_append, List.getLast?_append]
      simp
    by_cases hm : x.network_is_main = true
    · simp [privkey_from_wif, hdec, hlen, hm, hdrop, htake, privkey_is_compressed, hc,
        MAINNET_PREFIX, TESTNET_PREFIX, hlast]
    · simp [privkey_from_wif, hdec, hlen, hm, hdrop, htake, privkey_is_compressed, hc,
        MAINNET_PREFIX, TESTNET_PREFIX, hlast]
  · have hp : wif_payload x key
        = (if x.network_is_main = true then MAINNET_PREFIX else TESTNET_PREFIX)
          :: key.data := by
      rw [hpay]
      simp [hc, MAINNET_PREFIX, TESTNET_PREFIX]
    rw [hp] at hdec
    have htake : key.data.take x.PRIVKEY_LENGTH = key.data := by
      rw [← hlen, List.take_length]
    have hflag' : ¬ dx.PRIVKEY_UNCOMPRESSED_FLAG = x.PRIVKEY_COMPRESSED_FLAG := hflag
    by_cases hm : x.network_is_main = true
    · simp [privkey_from_wif, hdec, hlen, hm, hdrop, htake, privkey_is_compressed, hc,
        hflag', MAINNET_PREFIX, TESTNET_PREFIX]
    · simp [privkey_from_wif, hdec, hlen, hm, hdrop, htake, privkey_is_compressed, hc,
        hflag', MAINNET_PREFIX, TESTNET_PREFIX]

/-- C30 at concrete inputs: a compressed key of 32 bytes `7` on mainnet,
with the sample encoder and decoder, read back into a zeroed key. -/
theorem wif_round_trip_witness :
    (privkey_from_wif sample_encoder sample_decoder ⟨List.replicate 32 0, 0⟩
        (128 :: List.replicate 32 7 ++ [1])).1 = 1 ∧
      (privkey_from_wif sample_encoder sample_decoder ⟨List.replicate 32 0, 0⟩
        (128 :: List.replicate 32 7 ++ [1])).2.1.data = List.replicate 32 7 ∧
      privkey_is_compressed sample_encoder
        (privkey_from_wif sample_encoder sample_decoder ⟨List.replicate 32 0, 0⟩
          (128 :: List.replicate 32 7 ++ [1])).2.1
        = privkey_is_compressed sample_encoder ⟨List.replicate 32 7, 1⟩ ∧
      (privkey_from_wif sample_encoder sample_decoder ⟨List.replicate 32 0, 0⟩
        (128 :: List.replicate 32 7 ++ [1])).2.2 = some sample_encoder.network_is_main :=
  (wif_round_trip sample_encoder sample_decoder ⟨List.replicate 32 7, 1⟩
    ⟨List.replicate 32 0, 0⟩ [] (128 :: List.replicate 32 7 ++ [1])
    (Or.inl rfl) (by decide) (by decide) (by decide)
    (by
      intro p t h
      simp only [sample_encoder, Option.some.injEq] at h
      simp [sample_decoder, h])
    rfl).2.2

/-! ## Exit codes of the front -/

theorem results_of_found (x : Extern) (s : VanitySearch) (hf : s.found = true) :
    gd_handle_vanity_results x s = (-1, none) := by
  have hne : (vanity_get_wif x (some s) (some []) 100).1 ≠ 0 := by
    unfold vanity_get_wif
    simp only
    split
    · simp
    · exact privkey_to_wif_ne_zero x _ _
  simp [gd_handle_vanity_results, vanity_found, hf, hne]

theorem results_of_not_found (x : Extern) (s : VanitySearch) (hf : s.found = false) :
    gd_handle_vanity_results x s = (0, none) := by
  simp [gd_handle_vanity_results, vanity_found, hf]

theorem results_ne_one (x : Extern) (s : VanitySearch) :
    (gd_handle_vanity_results x s).1 ≠ 1 := by
  cases hf : s.found
  · rw [results_of_not_found x s hf]
    decide
  · rw [results_of_found x s hf]
    decide

/-- C31 fails on the code.  With the options parsed and the pattern
compiled, a search in which a worker has recorded a match makes the front
return -1 and not 0: `vanity_get_wif` hands back the 1 of `privkey_to_wif`,
the front takes it for a failure and never reaches the lines that print the
key and return 0.  A search stopped without a match makes it return 0, and so
does the answer `n` after a benchmark with `-b`, where the exit code 1 is
asked for. -/
theorem front_returns_zero_or_minus_one :
    gd_handle_vanity sample_encoder (fun _ _ => none)
        ⟨4, true, 110, true, some ⟨List.replicate 32 0, 1⟩, true, fun _ => true,
          ⟨5, 0⟩, ⟨9, 0⟩, []⟩ [.b] [cstr "ab"] = some 0 ∧
      gd_handle_vanity sample_encoder (fun _ _ => none)
        ⟨4, false, 0, true, some ⟨List.replicate 32 0, 1⟩, true, fun _ => true,
          ⟨5, 0⟩, ⟨9, 0⟩, [.stop]⟩ [] [cstr "ab"] = some 0 ∧
      gd_handle_vanity sample_encoder (fun _ _ => none)
        ⟨4, false, 0, true, some ⟨List.replicate 32 0, 1⟩, true, fun _ => true,
          ⟨5, 0⟩, ⟨9, 0⟩, [.match_site sample_candidate]⟩ [] [cstr "ab"] = some (-1) := by
  refine ⟨by decide, by decide, by decide⟩

/-- The values of `gd_handle_vanity` as the code stands, once the options are
parsed and the pattern is compiled: never 1; 0 when the benchmark ran and the
answer was `n` or `N`; otherwise -1 when the search could not be set up; and
with the search started, -1 when the wait ends with `found` set (the failed
test on `vanity_get_wif`) and 0 when it ends with `found` unset and `stopped`
set. -/
theorem front_exit_codes (x : Extern) (regcomp : CStr → Bool → Option regex_t)
    (env : FrontEnv) (opts : List Opt) (args : List CStr) (o : VanityOptions) (p : Pattern)
    (hopts : gd_handle_vanity_options env.nprocs opts = .ok o) (hargs : args ≠ [])
    (hcomp : gd_handle_vanity_compile regcomp o args = .ok p) :
    gd_handle_vanity x regcomp env opts args ≠ some 1 ∧
    ((o.run_benchmark && env.benchmark_ok && (env.response = 110 || env.response = 78)) = true →
      gd_handle_vanity x regcomp env opts args = some 0) ∧
    ((o.run_benchmark && env.benchmark_ok && (env.response = 110 || env.response = 78)) = false →
      (gd_handle_vanity_search regcomp env o args = none →
        gd_handle_vanity x regcomp env opts args = some (-1)) ∧
      (∀ ctx, gd_handle_vanity_search regcomp env o args = some ctx →
        ((run x ctx env.history).found = true →
          gd_handle_vanity x regcomp env opts args = some (-1)) ∧
        ((run x ctx env.history).found = false → (run x ctx env.history).stopped = true →
          gd_handle_vanity x regcomp env opts args = some 0))) := by
  have hb : ∀ b : Bool, (o.run_benchmark && env.benchmark_ok &&
      (env.response = 110 || env.response = 78)) = b →
      gd_handle_vanity x regcomp env opts args =
        if b then some 0
        else
          match gd_handle_vanity_search regcomp env o args with
          | none => some (-1)
          | some ctx =>
            if !vanity_found (some (run x ctx env.history)) &&
                !vanity_is_stopped (some (run x ctx env.history)) then none
            else some (gd_handle_vanity_results x (run x ctx env.history)).1 := by
    intro b hbv
    unfold gd_handle_vanity
    rw [hopts]
    simp only [hargs, if_false, hcomp, hbv]
  refine ⟨?_, ?_, ?_⟩
  · cases hbv : (o.run_benchmark && env.benchmark_ok &&
        (env.response = 110 || env.response = 78))
    · rw [hb false hbv]
      simp only [Bool.false_eq_true, if_false]
      cases hsearch : gd_handle_vanity_search regcomp env o args with
      | none => simp
      | some ctx =>
        simp only
        split
        · simp
        · intro h
          injection h with h
          exact results_ne_one x _ h
    · rw [hb true hbv]
      simp
  · intro hbv
    rw [hb true hbv]
    simp
  · intro hbv
    refine ⟨?_, ?_⟩
    · intro hnone
      rw [hb false hbv, hnone]
      simp
    · intro ctx hctx
      refine ⟨?_, ?_⟩
      · intro hf
        rw [hb false hbv, hctx]
        simp [vanity_found, hf, results_of_found x _ hf]
      · intro hf hs
        rw [hb false hbv, hctx]
        simp [vanity_found, vanity_is_stopped, hf, hs, results_of_not_found x _ hf]

/-- The values of the front at concrete inputs: no option, the text `ab`, and
a search that the signal handler stops before any match. -/
theorem front_exit_codes_witness :
    gd_handle_vanity sample_encoder (fun _ _ => none)
        ⟨4, false, 0, true, some ⟨List.replicate 32 0, 1⟩, true, fun _ => true,
          ⟨5, 0⟩, ⟨9, 0⟩, [.stop]⟩ [] [cstr "ab"] ≠ some 1 :=
  (front_exit_codes sample_encoder (fun _ _ => none)
    ⟨4, false, 0, true, some ⟨List.replicate 32 0, 1⟩, true, fun _ => true,
      ⟨5, 0⟩, ⟨9, 0⟩, [.stop]⟩ [] [cstr "ab"]
    ⟨true, false, 4, .PATTERN_TYPE_PREFIX, .PATTERN_COMBINE_AND⟩
    (.PREFIX true (cstr "ab") 2) rfl (by decide) rfl).1

/-! ## The worker of the search module -/

theorem gd_pattern_match_sound (g : GdVanityState) (a : CStr)
    (hpat : g.pattern_buf.length < MAX_PATTERN_LENGTH) (ha : a.length < 35)
    (h : GdVanity.pattern_match g (some a) = true) :
    (g.case_sensitive_match = true → g.pattern_buf <:+: a.drop 1) ∧
      (g.case_sensitive_match = false →
        g.pattern_buf.map tolower <:+: (a.drop 1).map tolower) := by
  have htake : strncpy_text g.pattern_buf (MAX_PATTERN_LENGTH - 1) = g.pattern_buf := by
    simp only [strncpy_text, MAX_PATTERN_LENGTH] at hpat ⊢
    exact List.take_of_length_le (by omega)
  have hdrop : strncpy_text (a.drop 1) 34 = a.drop 1 := by
    simp only [strncpy_text]
    exact List.take_of_length_le (by simp; omega)
  unfold GdVanity.pattern_match at h
  simp only [htake, hdrop] at h
  split at h
  · cases h
  · constructor
    · intro hcs
      rw [if_pos hcs] at h
      exact (strstr_isSome_iff _ _).mp h
    · intro hcs
      rw [hcs] at h
      simp only [Bool.false_eq_true, if_false] at h
      exact (strstr_isSome_iff _ _).mp h

theorem gd_pass_break_found (x : Extern) (d : Deriver) (g : GdVanityState)
    (key : Option PrivKey) (h : (GdVanity.thread_worker_pass x d g key).2 = true) :
    (GdVanity.thread_worker_pass x d g key).1.found = true := by
  unfold GdVanity.thread_worker_pass at h ⊢
  split
  · simp at h
  · rename_i privkey
    simp only at h ⊢
    split
    · rename_i hp
      simp [hp] at h
    · rename_i pubkey hp
      simp only [hp] at h
      split
      · rename_i hadr
        simp [hadr] at h
      · rename_i address hadr
        simp only [hadr] at h
        split
        · rename_i hm
          simp only [hm, if_true] at h
          split
          · rename_i hw
            simp [hw] at h
          · split
            · rfl
            · rename_i hf
              simpa using hf
        · rename_i hm
          simp [hm] at h

theorem gd_loop_leaves_found (x : Extern) (d : Deriver) (inputs : List WorkerInput) :
    ∀ g g', (∀ i ∈ inputs, i.should_exit = false) →
      GdVanity.thread_worker_loop x d g inputs = some g' → g'.found = true := by
  induction inputs with
  | nil =>
    intro g g' _ h
    simp [GdVanity.thread_worker_loop] at h
  | cons i rest ih =>
    intro g g' hexit h
    have hi : i.should_exit = false := hexit i (List.mem_cons_self _ _)
    unfold GdVanity.thread_worker_loop at h
    simp only [hi, Bool.false_or] at h
    split at h
    · rename_i hf
      injection h with h
      rw [← h]
      exact hf
    · split at h
      · rename_i hbreak
        injection h with h
        rw [← h]
        exact gd_pass_break_found x d g i.key hbreak
      · exact ih _ g' (fun j hj => hexit j (List.mem_cons_of_mem _ hj)) h

theorem gd_pass_records (x : Extern) (d : Deriver) (g : GdVanityState) (key : Option PrivKey)
    (hf : g.found = false) (hset : (GdVanity.thread_worker_pass x d g key).1.found = true) :
    ∃ privkey pubkey address, key = some privkey ∧ d.pubkey_get privkey = some pubkey ∧
      d.address_get_p2pkh pubkey = some address ∧
      GdVanity.pattern_match g (some address) = true ∧
      GdVanity.thread_worker_pass x d g key
        = ({ g with
              result_wif := strncpy_text (privkey_to_wif x [] privkey).2 52
              result_address := strncpy_text address 34
              found := true }, true) := by
  unfold GdVanity.thread_worker_pass at hset ⊢
  split
  · simp [hf] at hset
  · rename_i privkey
    simp only at hset ⊢
    split
    · rename_i hp
      simp [hp, hf] at hset
    · rename_i pubkey hp
      simp only [hp] at hset
      split
      · rename_i hadr
        simp [hadr, hf] at hset
      · rename_i address hadr
        simp only [hadr] at hset
        split
        · rename_i hm
          simp only [hm, if_true] at hset
          split
          · rename_i hw
            simp [hw, hf] at hset
          · exact ⟨privkey, pubkey, address, rfl, hp, hadr, hm, by simp [hf]⟩
        · rename_i hm
          simp [hm, hf] at hset

/-- C32: in `mods/gd_vanity.c`, a pass of a worker's loop that sets `found`
ends with `break`, leaves the pattern as it was, and records an address that,
first character removed, has the pattern as a contiguous substring, both
lower-cased when the search is case-insensitive; and a worker whose reads of
`should_exit` all give `false` leaves its loop only with `found` set.  The
pattern fits `pattern_buf` and an address fits its 35-byte buffer. -/
theorem gd_worker_records_match (x : Extern) (d : Deriver) (g : GdVanityState)
    (hpat : g.pattern_buf.length < MAX_PATTERN_LENGTH)
    (haddr : ∀ pub a, d.address_get_p2pkh pub = some a → a.length < 35) :
    (∀ key, g.found = false → (GdVanity.thread_worker_pass x d g key).1.found = true →
      (GdVanity.thread_worker_pass x d g key).2 = true ∧
      (GdVanity.thread_worker_pass x d g key).1.pattern_buf = g.pattern_buf ∧
      (g.case_sensitive_match = true →
        g.pattern_buf <:+: (GdVanity.thread_worker_pass x d g key).1.result_address.drop 1) ∧
      (g.case_sensitive_match = false →
        g.pattern_buf.map tolower <:+:
          ((GdVanity.thread_worker_pass x d g key).1.result_address.drop 1).map tolower)) ∧
    (∀ inputs g', (∀ i ∈ inputs, i.should_exit = false) →
      GdVanity.thread_worker_loop x d g inputs = some g' → g'.found = true) := by
  refine ⟨?_, fun inputs g' => gd_loop_leaves_found x d inputs g g'⟩
  intro key hf hset
  obtain ⟨privkey, pubkey, address, _, _, hadr, hm, hpass⟩ := gd_pass_records x d g key hf hset
  have ha := haddr pubkey address hadr
  have htake : strncpy_text address 34 = address := by
    simp only [strncpy_text]
    exact List.take_of_length_le (by omega)
  rw [hpass]
  refine ⟨rfl, rfl, ?_⟩
  simp only [htake]
  exact gd_pattern_match_sound g address hpat ha hm

/-- C32 at concrete inputs: the pattern `ab`, case-insensitive, and a key
whose address is `1ABxyz`. -/
theorem gd_worker_records_match_witness :
    (cstr "ab").map tolower <:+:
      ((GdVanity.thread_worker_pass sample_encoder sample_deriver sample_gd_state
        (some ⟨65 :: 66 :: 120 :: 121 :: 122 :: List.replicate 27 0, 1⟩)).1.result_address.drop
          1).map tolower :=
  ((gd_worker_records_match sample_encoder sample_deriver sample_gd_state (by decide)
    (by
      intro pub a h
      simp only [sample_deriver, Option.some.injEq] at h
      subst h
      simp only [List.length_cons, List.length_take]
      omega)).1
    (some ⟨65 :: 66 :: 120 :: 121 :: 122 :: List.replicate 27 0, 1⟩) rfl
    (by decide)).2.2.2 rfl

/-! ## The attempts counter -/

theorem step_attempts (x : Extern) (s : VanitySearch) (e : Event) :
    (step x s e).attempts = s.attempts ∨ (step x s e).attempts = (s.attempts + 1) % 2 ^ 64 := by
  cases e with
  | start created clock wall =>
    left
    simp only [step, vanity_start]
    split <;> rfl
  | stop => exact Or.inl rfl
  | set_progress_callback cb ud ms =>
    left
    simp only [step, vanity_set_progress_callback]
    split
    · rfl
    · split <;> rfl
  | count_attempt => exact Or.inr rfl
  | match_site c =>
    left
    simp only [step, worker_match_site]
    split
    · split <;> rfl
    · rfl
  | progress now =>
    left
    simp only [step, worker_progress]
    split
    · rfl
    · split <;> rfl
  | set_running thread running => exact Or.inl rfl

theorem step_attempts_bounds (x : Extern) (s : VanitySearch) (e : Event)
    (h : s.attempts + 1 < 2 ^ 64) :
    s.attempts ≤ (step x s e).attempts ∧ (step x s e).attempts ≤ s.attempts + 1 := by
  rcases step_attempts x s e with h1 | h1
  · omega
  · rw [Nat.mod_eq_of_lt h] at h1
    omega

theorem run_attempts_bounds (x : Extern) (events : List Event) :
    ∀ s : VanitySearch, s.attempts + events.length < 2 ^ 64 →
      s.attempts ≤ (run x s events).attempts ∧
        (run x s events).attempts ≤ s.attempts + events.length := by
  induction events with
  | nil =>
    intro s _
    simp [run]
  | cons e events ih =>
    intro s h
    simp only [List.length_cons] at h
    have h1 := step_attempts_bounds x s e (by omega)
    have h2 := ih (step x s e) (by omega)
    have hrun : run x s (e :: events) = run x (step x s e) events := rfl
    rw [hrun]
    simp only [List.length_cons]
    omega

/-- C33: every step of a worker or of the coordinator leaves `attempts` as
it is or adds 1 to the 64-bit counter, and only the counting step of a
worker changes it; along a sequence of steps that keeps the counter below
`2^64` the value after any prefix is at most the value at the end, so the
counter never decreases. -/
theorem attempts_never_decrease (x : Extern) (s : VanitySearch) (events : List Event)
    (hbound : s.attempts + events.length < 2 ^ 64) :
    (∀ e, (step x s e).attempts = s.attempts ∨
      (step x s e).attempts = (s.attempts + 1) % 2 ^ 64) ∧
    (∀ created clock wall, (step x s (.start created clock wall)).attempts = s.attempts) ∧
    (step x s .stop).attempts = s.attempts ∧
    (∀ cb ud ms, (step x s (.set_progress_callback cb ud ms)).attempts = s.attempts) ∧
    (step x s .count_attempt).attempts = (s.attempts + 1) % 2 ^ 64 ∧
    (∀ pre post, events = pre ++ post →
      s.attempts ≤ (run x s pre).attempts ∧
        (run x s pre).attempts ≤ (run x s events).attempts) := by
  refine ⟨step_attempts x s, ?_, rfl, ?_, rfl, ?_⟩
  · intro created clock wall
    simp only [step, vanity_start]
    split <;> rfl
  · intro cb ud ms
    simp only [step, vanity_set_progress_callback]
    split
    · rfl
    · split <;> rfl
  · intro pre post hev
    subst hev
    simp only [List.length_append] at hbound
    have h1 := run_attempts_bounds x pre s (by omega)
    have h2 := run_attempts_bounds x post (run x s pre) (by omega)
    have hrun : run x s (pre ++ post) = run x (run x s pre) post := by
      simp [run, List.foldl_append]
    rw [hrun]
    exact ⟨h1.1, h2.1⟩

/-- C33 at concrete inputs: the sample search over a start, two counted
attempts, a match and a stop. -/
theorem attempts_never_decrease_witness :
    sample_search.attempts ≤
        (run sample_extern sample_search
          [.start (fun _ => true) ⟨5, 0⟩ ⟨9, 0⟩, .count_attempt]).attempts ∧
      (run sample_extern sample_search
          [.start (fun _ => true) ⟨5, 0⟩ ⟨9, 0⟩, .count_attempt]).attempts ≤
        (run sample_extern sample_search
          ([.start (fun _ => true) ⟨5, 0⟩ ⟨9, 0⟩, .count_attempt] ++
            [.count_attempt, .match_site sample_candidate, .stop])).attempts :=
  (attempts_never_decrease sample_extern sample_search
    ([.start (fun _ => true) ⟨5, 0⟩ ⟨9, 0⟩, .count_attempt] ++
      [.count_attempt, .match_site sample_candidate, .stop]) (by decide)).2.2.2.2.2
    [.start (fun _ => true) ⟨5, 0⟩ ⟨9, 0⟩, .count_attempt]
    [.count_attempt, .match_site sample_candidate, .stop] rfl

/-! ## `pattern_describe` -/

theorem takeWhile_append_stop {α : Type} (p : α → Bool) (l : List α) (a : α) (r : List α)
    (hl : ∀ b ∈ l, p b = true) (ha : p a = false) :
    (l ++ a :: r).takeWhile p = l := by
  induction l with
  | nil => simp [List.takeWhile, ha]
  | cons b l ih =>
    have hb : p b = true := hl b (List.mem_cons_self _ _)
    simp only [List.cons_append, List.takeWhile_cons, hb, if_true]
    rw [ih (fun c hc => hl c (List.mem_cons_of_mem _ hc))]

theorem snprintf_spec (buf : List Nat) (size : Nat) (text : CStr) (hsize : 1 ≤ size)
    (hcap : size ≤ buf.length) (htext : 0 ∉ text) :
    (snprintf buf size text).length = buf.length ∧
      (∀ i, size ≤ i → (snprintf buf size text)[i]? = buf[i]?) ∧
      buffer_text (snprintf buf size text) = text.take (size - 1) ∧
      (snprintf buf size text)[(text.take (size - 1)).length]? = some 0 := by
  have hs : ¬ size = 0 := by omega
  have hlen : (text.take (size - 1)).length ≤ size - 1 := by
    simp only [List.length_take]
    omega
  simp only [snprintf, hs, if_false]
  refine ⟨?_, ?_, ?_, ?_⟩
  · simp only [List.length_append, List.length_cons, List.length_drop]
    omega
  · intro i hi
    rw [List.getElem?_append_right (by omega)]
    obtain ⟨j, hj⟩ : ∃ j, i - (text.take (size - 1)).length = j + 1 :=
      ⟨i - (text.take (size - 1)).length - 1, by omega⟩
    rw [hj, List.getElem?_cons_succ, List.getElem?_drop]
    congr 1
    omega
  · unfold buffer_text
    apply takeWhile_append_stop
    · intro b hb
      have hb' : b ∈ text := List.mem_of_mem_take hb
      have : b ≠ 0 := fun h => htext (h ▸ hb')
      simpa using this
    · simp
  · rw [List.getElem?_append_right (le_refl _)]
    simp

theorem description_eq (p : Pattern) :
    description p = match p with
      | .PREFIX _ str _ => cstr "Prefix: " ++ str
      | .SUFFIX _ str _ => cstr "Suffix: " ++ str
      | .CONTAINS _ str _ => cstr "Contains: " ++ str
      | .EXACT _ str _ => cstr "Exact: " ++ str
      | .REGEX _ _ _ => cstr "Regex pattern"
      | .WILDCARD _ _ => cstr "Wildcard pattern"
      | .MULTI _ _ type =>
        cstr "Multi-pattern (" ++
          (if type = .PATTERN_COMBINE_AND then cstr "AND" else cstr "OR") ++ cstr ")"
      | .ALTERNATION _ _ => cstr "Alternation pattern" := by
  cases p with
  | MULTI cs ps type => cases type <;> rfl
  | _ => rfl

theorem pattern_describe_eq (p : Pattern) (buf : List Nat) (size : Nat) (hsize : 1 ≤ size) :
    pattern_describe (some p) (some buf) size = (0, some (snprintf buf size (description p))) := by
  have hs : ¬ size = 0 := by omega
  rw [description_eq]
  cases p <;> simp only [pattern_describe, hs, if_false]

/-- C34: for a pattern, a buffer of at least `size` bytes and `size ≥ 1`,
`pattern_describe` returns 0, changes no byte at an index `≥ size`, and leaves
in the buffer the description cut to `size - 1` characters followed by a NUL
byte; without a pattern, without a buffer, or with `size = 0` it returns -1
and the buffer is as before.  Texts hold no NUL byte. -/
theorem pattern_describe_contract (p : Pattern) (buf : List Nat) (size : Nat)
    (hsize : 1 ≤ size) (hcap : size ≤ buf.length) (htext : 0 ∉ description p) :
    (∃ out, pattern_describe (some p) (some buf) size = (0, some out) ∧
      out.length = buf.length ∧
      (∀ i, size ≤ i → out[i]? = buf[i]?) ∧
      buffer_text out = (description p).take (size - 1) ∧
      (buffer_text out).length ≤ size - 1 ∧
      out[(buffer_text out).length]? = some 0) ∧
    (∀ b n, pattern_describe none b n = (-1, b)) ∧
    (∀ q n, pattern_describe q none n = (-1, none)) ∧
    (∀ q b, pattern_describe q b 0 = (-1, b)) := by
  obtain ⟨h1, h2, h3, h4⟩ := snprintf_spec buf size (description p) hsize hcap htext
  refine ⟨⟨_, pattern_describe_eq p buf size hsize, h1, h2, h3, ?_, ?_⟩, ?_, ?_, ?_⟩
  · rw [h3, List.length_take]
    omega
  · rw [h3]
    exact h4
  · intro b n
    cases b <;> rfl
  · intro q n
    cases q <;> rfl
  · intro q b
    cases q <;> cases b <;> rfl

/-- C34 at concrete inputs: the Prefix pattern `1ABC` described into a
buffer of 12 bytes with `size = 10`. -/
theorem pattern_describe_contract_witness :
    ∃ out, pattern_describe (some (.PREFIX true (cstr "1ABC") 4))
        (some (List.replicate 12 7)) 10 = (0, some out) ∧
      out.length = (List.replicate 12 7).length ∧
      (∀ i, 10 ≤ i → out[i]? = (List.replicate 12 7)[i]?) ∧
      buffer_text out = (description (.PREFIX true (cstr "1ABC") 4)).take (10 - 1) ∧
      (buffer_text out).length ≤ 10 - 1 ∧
      out[(buffer_text out).length]? = some 0 :=
  (pattern_describe_contract (.PREFIX true (cstr "1ABC") 4) (List.replicate 12 7) 10
    (by decide) (by decide) (by decide)).1

/-! ## Lifetime of the pattern text -/

/-- C35 fails on the code.  `vanity_init` copies the compiled struct into
the state and then calls `pattern_free` on it, which releases the text
(block 2) that `pattern.str.str` of the state still points to: when
`vanity_init` returns, the state (block 0) and the result key (block 3) are
allocated and the text is not.  The `pattern_match` of a worker then reads
released memory, and `vanity_cleanup` releases the text a second time,
releases the state block through `&search->pattern`, reads the state
afterwards and releases it again. -/
theorem pattern_text_released_early :
    vanity_init_blocks empty_heap
        = (⟨.block 0, .block 2, .block 3⟩, ⟨[3, 0], [1, 2], 4, []⟩) ∧
      2 ∉ (vanity_init_blocks empty_heap).2.live ∧
      (worker_pattern_reads (vanity_init_blocks empty_heap).2
          (vanity_init_blocks empty_heap).1).faults = [.use_after_free 2] ∧
      (vanity_cleanup_blocks (vanity_init_blocks empty_heap).2
          (vanity_init_blocks empty_heap).1).faults
        = [.double_free 2, .use_after_free 0, .use_after_free 0, .double_free 0] ∧
      (vanity_cleanup_blocks (vanity_init_blocks empty_heap).2
          (vanity_init_blocks empty_heap).1).live = [] := by
  refine ⟨by decide, by decide, by decide, by decide, by decide⟩

/-! ## Soundness of the wildcard matcher -/

/-- C36: a candidate `s` that `match_wildcard` accepts on the segments
written for a wildcard text `t` is described by them (each literal segment
stands for its text, each wildcard segment for some run of bytes, possibly
empty) and belongs to the glob language of `t`; so does every candidate
accepted by a pattern that `pattern_compile` returns for `t`. -/
theorem wildcard_accepts_only_glob (regcomp : CStr → Bool → Option regex_t) (t s : CStr)
    (cs : Bool) :
    (match_wildcard (wildcard_parse [] t) s = some true →
      segments_accept (wildcard_parse [] t) s ∧ glob_language t s = true) ∧
    (∀ p, pattern_compile regcomp (some t) .PATTERN_TYPE_WILDCARD cs = .ok p →
      pattern_match p s = some true → glob_language t s = true) := by
  have hsound : match_wildcard (wildcard_parse [] t) s = some true →
      segments_accept (wildcard_parse [] t) s ∧ glob_language t s = true := by
    intro hm
    have hacc := match_wildcard_sound _ _ hm
    have := wildcard_parse_sound t [] s (by simp) hacc
    exact ⟨hacc, by simpa using this⟩
  refine ⟨hsound, ?_⟩
  intro p h hm
  unfold pattern_compile at h
  simp only at h
  split at h
  · cases h
  · obtain ⟨hp, _⟩ := compile_wildcard_ok t cs p h
    subst hp
    simp only [pattern_match] at hm
    exact (hsound hm).2

/-! ## Segment indices read by `match_wildcard` -/

theorem wildcard_walk_literal (last : Option Bool) (seg : pattern_segment_t)
    (rest : List pattern_segment_t) (s : CStr) (hw : ¬ seg.is_wildcard = true) :
    wildcard_walk last (seg :: rest) s
      = if strncmp s seg.str seg.len ≠ 0 then some false
        else wildcard_walk last rest (s.drop seg.len) := by
  cases rest <;> simp only [wildcard_walk, hw, Bool.false_eq_true, if_false]

theorem wildcard_walk_at_eq (segments : List pattern_segment_t) :
    ∀ fuel i s, i ≤ segments.length → segments.length - i < fuel →
      wildcard_walk_at segments fuel i s
        = wildcard_walk (segments.getLast?.map (·.is_wildcard)) (segments.drop i) s := by
  intro fuel
  induction fuel with
  | zero =>
    intro i s _ h
    omega
  | succ fuel ih =>
    intro i s hi hfuel
    unfold wildcard_walk_at
    by_cases hlt : i < segments.length
    · rw [if_pos hlt, List.getElem?_eq_getElem hlt]
      simp only
      by_cases hw : segments[i].is_wildcard = true
      · rw [if_pos hw]
        by_cases hlast : i = segments.length - 1
        · have hd : segments.drop i = [segments[i]] := by
            rw [List.drop_eq_getElem_cons hlt, List.drop_eq_nil_of_le (by omega)]
          rw [if_pos hlast, hd]
          simp only [wildcard_walk, hw, if_true]
        · have hlt' : i + 1 < segments.length := by omega
          have hd : segments.drop i
              = segments[i] :: segments[i + 1] :: segments.drop (i + 2) := by
            rw [List.drop_eq_getElem_cons hlt, List.drop_eq_getElem_cons hlt']
          rw [if_neg hlast, List.getElem?_eq_getElem hlt', hd]
          simp only [wildcard_walk, hw, if_true]
          cases hscan : wildcard_scan segments[i + 1] s with
          | none => rfl
          | some s' =>
            simp only
            exact ih (i + 2) s' (by omega) (by omega)
      · rw [if_neg hw, List.drop_eq_getElem_cons hlt, wildcard_walk_literal _ _ _ _ hw]
        by_cases hcmp : strncmp s segments[i].str segments[i].len ≠ 0
        · rw [if_pos hcmp, if_pos hcmp]
        · rw [if_neg hcmp, if_neg hcmp]
          exact ih (i + 1) _ (by omega) (by omega)
    · have hi' : i = segments.length := by omega
      subst hi'
      rw [if_neg hlt, List.drop_length]
      simp only [wildcard_walk]
      by_cases hs : s = []
      · rw [if_pos hs, if_pos hs]
      · rw [if_neg hs, if_neg hs]
        by_cases h0 : segments.length = 0
        · rw [if_pos h0]
          have : segments = [] := List.length_eq_zero.mp h0
          subst this
          rfl
        · rw [if_neg h0, List.getLast?_eq_getElem?]

theorem match_wildcard_at_eq (segments : List pattern_segment_t) (s : CStr) :
    match_wildcard_at segments s = match_wildcard segments s := by
  unfold match_wildcard_at match_wildcard
  rw [wildcard_walk_at_eq segments _ 0 s (by omega) (by omega)]
  rfl

theorem wildcard_walk_defined_aux (b : Bool) :
    ∀ n (segs : List pattern_segment_t), segs.length ≤ n →
      ∀ s, wildcard_walk (some b) segs s ≠ none := by
  intro n
  induction n with
  | zero =>
    intro segs hlen s
    have : segs = [] := List.length_eq_zero.mp (by omega)
    subst this
    simp only [wildcard_walk]
    split <;> simp
  | succ n ih =>
    intro segs hlen s
    cases segs with
    | nil =>
      simp only [wildcard_walk]
      split <;> simp
    | cons seg rest =>
      simp only [List.length_cons] at hlen
      by_cases hw : seg.is_wildcard = true
      · cases rest with
        | nil => simp [wildcard_walk, hw]
        | cons nxt rest' =>
          simp only [List.length_cons] at hlen
          simp only [wildcard_walk, hw, if_true]
          cases wildcard_scan nxt s with
          | none => simp
          | some s' => exact ih rest' (by omega) s'
      · rw [wildcard_walk_literal _ _ _ _ hw]
        split
        · simp
        · exact ih rest (by omega) _

theorem wildcard_walk_defined (b : Bool) (segs : List pattern_segment_t) (s : CStr) :
    wildcard_walk (some b) segs s ≠ none :=
  wildcard_walk_defined_aux b segs.length segs (le_refl _) s

theorem wildcard_parse_ne_nil (t : CStr) : ∀ run, run ++ t ≠ [] → wildcard_parse run t ≠ [] := by
  induction t with
  | nil =>
    intro run h
    have hr : run ≠ [] := by simpa using h
    simp [wildcard_parse, hr]
  | cons c t ih =>
    intro run _
    simp only [wildcard_parse]
    split
    · split <;> simp
    · exact ih (run ++ [c]) (by simp)

/-- C37 fails on the code for the empty text: `pattern_compile` returns for
it a Wildcard pattern with `segment_count = 0`, and on a non-empty candidate
the final test of `match_wildcard` reads `segments[segment_count - 1]`, an
index outside the array.  For every pattern returned for a non-empty text,
and every candidate, all reads are inside the array.  The walk by index
agrees with the walk over the segment list on every input. -/
theorem wildcard_reads_outside_for_empty_text :
    pattern_compile (fun _ _ => none) (some []) .PATTERN_TYPE_WILDCARD true
        = .ok (.WILDCARD true []) ∧
      match_wildcard_at [] (cstr "a") = none ∧
      pattern_match (.WILDCARD true []) (cstr "a") = none ∧
      (∀ segments s, match_wildcard_at segments s = match_wildcard segments s) ∧
      (∀ (regcomp : CStr → Bool → Option regex_t) (t : CStr) (cs : Bool) (segments : _),
        t ≠ [] → pattern_compile regcomp (some t) .PATTERN_TYPE_WILDCARD cs
            = .ok (.WILDCARD cs segments) →
          ∀ s, match_wildcard_at segments s ≠ none ∧
            pattern_match (.WILDCARD cs segments) s ≠ none) := by
  refine ⟨rfl, by decide, by decide, match_wildcard_at_eq, ?_⟩
  intro regcomp t cs segments ht h s
  unfold pattern_compile at h
  simp only at h
  split at h
  · cases h
  · obtain ⟨hp, _⟩ := compile_wildcard_ok t cs _ h
    injection hp with _ hseg
    subst hseg
    have hne : wildcard_parse [] t ≠ [] := wildcard_parse_ne_nil t [] (by simpa using ht)
    have hdef : match_wildcard (wildcard_parse [] t) s ≠ none := by
      unfold match_wildcard
      obtain ⟨g, hg⟩ : ∃ g, (wildcard_parse [] t).getLast? = some g := by
        cases hl : (wildcard_parse [] t).getLast? with
        | none => exact absurd (List.getLast?_eq_none_iff.mp hl) hne
        | some g => exact ⟨g, rfl⟩
      rw [hg]
      exact wildcard_walk_defined _ _ s
    refine ⟨by rw [match_wildcard_at_eq]; exact hdef, ?_⟩
    simp only [pattern_match]
    exact hdef

/-! ## Multi-AND patterns of `pattern_compile_multi` -/

theorem match_all_exact (texts : List CStr) (s : CStr) :
    pattern_match_all (texts.map fun t => Pattern.EXACT true t t.length) s
      = some (decide (∀ t ∈ texts, s = t)) := by
  induction texts with
  | nil => simp [pattern_match_all]
  | cons t ts ih =>
    simp only [List.map_cons, pattern_match_all, match_exact_sensitive]
    by_cases hst : s = t
    · simp only [hst, decide_True]
      rw [← hst, ih]
      simp [hst]
    · simp [hst]

/-- C38: a case-sensitive Multi-AND pattern that `pattern_compile_multi`
returns for the texts `t_1 .. t_n` accepts a candidate `s` exactly when `s`
equals every `t_i`, and rejects it otherwise; when two of the texts differ it
accepts no candidate. -/
theorem multi_and_needs_equal_texts (regcomp : CStr → Bool → Option regex_t)
    (texts : List CStr) (p : Pattern) (s : CStr)
    (h : pattern_compile_multi regcomp (some (texts.map some)) .PATTERN_COMBINE_AND true
      = .ok p) :
    pattern_match p s = some (decide (∀ t ∈ texts, s = t)) ∧
    (pattern_match p s = some true ↔ ∀ t ∈ texts, s = t) ∧
    ((∃ t₁ ∈ texts, ∃ t₂ ∈ texts, t₁ ≠ t₂) → ∀ c, pattern_match p c = some false) := by
  rw [compile_multi_eq] at h
  split at h
  · injection h with h
    subst h
    have hm : ∀ c, pattern_match
        (.MULTI true (texts.map fun t => Pattern.EXACT true t t.length) .PATTERN_COMBINE_AND) c
        = some (decide (∀ t ∈ texts, c = t)) := by
      intro c
      simp only [pattern_match]
      exact match_all_exact texts c
    refine ⟨hm s, ?_, ?_⟩
    · rw [hm s]
      simp
    · rintro ⟨t₁, h₁, t₂, h₂, hne⟩ c
      rw [hm c]
      have : ¬ ∀ t ∈ texts, c = t := by
        intro hall
        exact hne ((hall t₁ h₁).symm.trans (hall t₂ h₂))
      simp [this]
  · cases h

/-- C38 at concrete inputs: the texts `ABC` and `XYZ` of the usage example
`-m and ABC XYZ`, on the candidate `ABC`. -/
theorem multi_and_needs_equal_texts_witness :
    pattern_match
      (.MULTI true [.EXACT true (cstr "ABC") 3, .EXACT true (cstr "XYZ") 3]
        .PATTERN_COMBINE_AND) (cstr "ABC") = some false :=
  (multi_and_needs_equal_texts (fun _ _ => none) [cstr "ABC", cstr "XYZ"]
    (.MULTI true [.EXACT true (cstr "ABC") 3, .EXACT true (cstr "XYZ") 3]
      .PATTERN_COMBINE_AND) [] rfl).2.2
    ⟨cstr "ABC", by simp, cstr "XYZ", by simp, by decide⟩ (cstr "ABC")

/-! ## The rate passed to the progress callback -/

/-- C39 fails on the code for the interval 0, which
`vanity_set_progress_callback` accepts: a worker that reaches the progress
check less than a millisecond after `last_progress` (here 400 microseconds)
has `elapsed_ms = 0 >= 0`, invokes the callback, and divides
`current_attempts * 1000.0` by zero.  For every interval of at least 1 the
callback is invoked only with `elapsed_ms > 0` and the rate is
`attempts × 1000 / elapsed_ms`. -/
theorem progress_rate_divides_by_zero :
    (vanity_set_progress_callback { sample_search with attempts := 16, last_progress := ⟨9, 500⟩ }
        (some 1) 0 0).1 = 0 ∧
      progress_elapsed_ms
        (vanity_set_progress_callback
          { sample_search with attempts := 16, last_progress := ⟨9, 500⟩ } (some 1) 0 0).2
        ⟨9, 900⟩ = 0 ∧
      worker_progress_call
        (vanity_set_progress_callback
          { sample_search with attempts := 16, last_progress := ⟨9, 500⟩ } (some 1) 0 0).2
        ⟨9, 900⟩ = some (16, none) ∧
      (∀ (s : VanitySearch) (now : TimeVal) (attempts : Nat) (rate : Option ℚ),
        1 ≤ s.progress_interval_ms → worker_progress_call s now = some (attempts, rate) →
          0 < progress_elapsed_ms s now ∧ attempts = s.attempts ∧
            rate = some ((s.attempts : ℚ) * 1000 / (progress_elapsed_ms s now : ℚ))) ∧
      (∀ (s : VanitySearch) (cb : Option Nat) (ud : Nat) (ms : Int),
        (vanity_set_progress_callback s cb ud ms).1 = 0 ↔ cb ≠ none ∧ 0 ≤ ms) := by
  refine ⟨by decide, by decide, by decide, ?_, ?_⟩
  · intro s now attempts rate hint hcall
    unfold worker_progress_call at hcall
    split at hcall
    · cases hcall
    · split at hcall
      · rename_i hge
        have hpos : 0 < progress_elapsed_ms s now := by omega
        have hne : ¬ progress_elapsed_ms s now = 0 := by omega
        rw [if_neg hne] at hcall
        injection hcall with hcall
        injection hcall with h1 h2
        exact ⟨hpos, h1.symm, h2.symm⟩
      · cases hcall
  · intro s cb ud ms
    unfold vanity_set_progress_callback
    cases cb with
    | none => simp
    | some c =>
      simp only
      split
      · rename_i hneg
        simp
        omega
      · rename_i hneg
        simp
        omega

/-! ## Elapsed time -/

theorem tdiv_million (d : Int) :
    (0 ≤ d → Int.tdiv d 1000000 = d / 1000000) ∧
      (d < 0 → Int.tdiv d 1000000 = -((-d) / 1000000)) := by
  constructor
  · intro h
    exact Int.tdiv_eq_ediv h (by decide)
  · intro h
    have h1 : Int.tdiv (-(-d)) 1000000 = -(Int.tdiv (-d) 1000000) := Int.neg_tdiv (-d) 1000000
    rw [Int.neg_neg] at h1
    rw [h1, Int.tdiv_eq_ediv (by omega) (by decide)]

/-- C40: for a start and a current monotonic timestamp with nanosecond fields
in `0 .. 999,999,999` and current not before start, `vanity_get_elapsed`
returns the floor or the ceiling of the exact elapsed nanoseconds divided by
`10^6`, and differs from the exact elapsed milliseconds by less than 1 ms.
The elapsed seconds times 1000 fit a `long`. -/
theorem elapsed_floor_or_ceiling (s : VanitySearch) (now : TimeVal)
    (hs0 : 0 ≤ s.start_time.sub) (hs1 : s.start_time.sub < 1000000000)
    (hn0 : 0 ≤ now.sub) (hn1 : now.sub < 1000000000)
    (hge : 0 ≤ elapsed_ns s.start_time now)
    (hfit : (now.sec - s.start_time.sec) * 1000 + 999 < 2 ^ 63) :
    ((vanity_get_elapsed (some s) now : Int) = elapsed_ns s.start_time now / 1000000 ∨
      (vanity_get_elapsed (some s) now : Int)
        = (elapsed_ns s.start_time now + 999999) / 1000000) ∧
    (((vanity_get_elapsed (some s) now : Int) * 1000000 ≤ elapsed_ns s.start_time now ∧
        elapsed_ns s.start_time now < ((vanity_get_elapsed (some s) now : Int) + 1) * 1000000) ∨
      (((vanity_get_elapsed (some s) now : Int) - 1) * 1000000 < elapsed_ns s.start_time now ∧
        elapsed_ns s.start_time now ≤ (vanity_get_elapsed (some s) now : Int) * 1000000)) ∧
    |(vanity_get_elapsed (some s) now : Int) * 1000000 - elapsed_ns s.start_time now|
      < 1000000 := by
  obtain ⟨hpos, hneg⟩ := tdiv_million (now.sub - s.start_time.sub)
  simp only [elapsed_ns] at hge ⊢
  have hval : ∃ v : Int, v = (now.sec - s.start_time.sec) * 1000 +
      Int.tdiv (now.sub - s.start_time.sub) 1000000 := ⟨_, rfl⟩
  obtain ⟨v, hv⟩ := hval
  have hrange : 0 ≤ v ∧ v < 2 ^ 63 := by
    by_cases hd : 0 ≤ now.sub - s.start_time.sub
    · rw [hpos hd] at hv
      omega
    · rw [hneg (by omega)] at hv
      omega
  have hcast : (vanity_get_elapsed (some s) now : Int) = v := by
    simp only [vanity_get_elapsed, ← hv]
    rw [Int.toNat_of_nonneg (by omega)]
    omega
  rw [hcast]
  by_cases hd : 0 ≤ now.sub - s.start_time.sub
  · rw [hpos hd] at hv
    refine ⟨?_, ?_, ?_⟩
    · left
      omega
    · left
      omega
    · rw [abs_lt]
      omega
  · rw [hneg (by omega)] at hv
    refine ⟨?_, ?_, ?_⟩
    · right
      omega
    · right
      omega
    · rw [abs_lt]
      omega

/-- C40 at concrete inputs: from 0 s 999,999,999 ns to 1 s 0 ns, one
nanosecond later, the function returns 1. -/
theorem elapsed_floor_or_ceiling_witness :
    ((vanity_get_elapsed (some { sample_search with start_time := ⟨0, 999999999⟩ }) ⟨1, 0⟩ : Int)
        = elapsed_ns ⟨0, 999999999⟩ ⟨1, 0⟩ / 1000000 ∨
      (vanity_get_elapsed (some { sample_search with start_time := ⟨0, 999999999⟩ }) ⟨1, 0⟩ : Int)
        = (elapsed_ns ⟨0, 999999999⟩ ⟨1, 0⟩ + 999999) / 1000000) :=
  (elapsed_floor_or_ceiling { sample_search with start_time := ⟨0, 999999999⟩ } ⟨1, 0⟩
    (by decide) (by decide) (by decide) (by decide) (by decide) (by decide)).1

end Gravedigger
